import Mathlib

/-!
Shallow embedding of the repo-to-DB localization sync core of pontoon
(src/pontoon/sync/), over list-based relational states.

Machine conventions:
- Timestamps (datetime values) are modelled as Nat.
- Python dicts are modelled as association lists with dict semantics:
  a lookup returns the value of the first matching key, an insert replaces
  the value of an existing key in place (keeping its position, as Python
  dicts keep insertion order) and otherwise appends, a delete removes the
  key.
- Python exceptions are modelled with Except: a function that can raise
  returns Except SyncErr.
-/

namespace Pontoon

/-- Errors raised by the modelled Python code. -/
inductive SyncErr where
  /-- AttributeError, e.g. dereferencing an attribute of None. -/
  | attrError
  /-- django.core.exceptions.FieldDoesNotExist raised by bulk_update field
  resolution. -/
  | fieldDoesNotExist
  /-- KeyError from a dict subscript on a missing key. -/
  | keyError
  /-- ValueError, e.g. bulk_update called with no field names or with
  unsaved objects. -/
  | valueError
  /-- TypeError, e.g. str.join applied to None. -/
  | typeError
deriving DecidableEq, Repr

/-- First-match association-list lookup (Python dict subscript/get). -/
def alookup {κ ν : Type} [DecidableEq κ] : List (κ × ν) → κ → Option ν
  | [], _ => none
  | (k', v) :: m, k => if k = k' then some v else alookup m k

/-- Dict insert: replace the value of an existing key in place, else append
(Python dict assignment/update keeps the original position of a key). -/
def aset {κ ν : Type} [DecidableEq κ] : List (κ × ν) → κ → ν → List (κ × ν)
  | [], k, v => [(k, v)]
  | (k', v') :: m, k, v => if k = k' then (k', v) :: m else (k', v') :: aset m k v

/-- Dict delete: remove the entries with the given key. -/
def adel {κ ν : Type} [DecidableEq κ] : List (κ × ν) → κ → List (κ × ν)
  | [], _ => []
  | (k', v) :: m, k => if k' = k then adel m k else (k', v) :: adel m k

/-! ## Data model (§3 of the spec; pontoon.base.models referenced by src/) -/

/-- A Locale row: (id, code). -/
structure LocaleRow where
  id : Nat
  code : String
deriving DecidableEq, Repr

/-- A Resource row (single implicit project; `(project, path)` is unique, so
`path` identifies the row). -/
structure ResourceRow where
  path : String
  format : String
  total_strings : Nat
  order : Nat
deriving DecidableEq, Repr

/-- An Entity row. The resource foreign key is denormalized to the resource
path (unique per project), matching the flat tuples the source queries
project out via `entity.resource.path`. -/
structure EntityRow where
  id : Nat
  resource_path : String
  string : String
  string_plural : String
  key : String
  comment : String
  source : String
  group_comment : String
  resource_comment : String
  context : String
  order : Nat
  obsolete : Bool
  date_created : Nat
  date_obsoleted : Option Nat
deriving DecidableEq, Repr

/-- A Translation row. User audit columns are user ids. -/
structure TranslationRow where
  id : Nat
  entity_id : Nat
  locale_id : Nat
  plural_form : Option Nat
  string : String
  active : Bool
  approved : Bool
  pretranslated : Bool
  fuzzy : Bool
  rejected : Bool
  date : Nat
  approved_date : Option Nat
  rejected_date : Option Nat
  unrejected_date : Option Nat
  unapproved_date : Option Nat
  approved_user : Option Nat
  rejected_user : Option Nat
  unrejected_user : Option Nat
  unapproved_user : Option Nat
deriving DecidableEq, Repr

/-- A TranslatedResource row; the locale foreign key is denormalized to both
its id and its code (the deletion predicate in
delete_removed_translated_resources filters on `locale__code`). -/
structure TranslatedResourceRow where
  resource_path : String
  locale_id : Nat
  locale_code : String
  total_strings : Nat
deriving DecidableEq, Repr

/-- A ChangedEntityLocale row (the database-wins conflict signal). -/
structure CelRow where
  entity_id : Nat
  locale_id : Nat
deriving DecidableEq, Repr

/-- ActionLog.ActionType values used by update_db_translations. -/
inductive ActionType where
  | created
  | approved
  | unrejected
  | rejected
deriving DecidableEq, Repr

/-- An ActionLog row. All actions are performed by the pontoon-sync user, so
the performer column is omitted. -/
structure ActionRow where
  action_type : ActionType
  translation_id : Nat
  created_at : Nat
deriving DecidableEq, Repr

/-- The database state for one project. -/
structure Db where
  resources : List ResourceRow
  entities : List EntityRow
  translations : List TranslationRow
  translated_resources : List TranslatedResourceRow
  changed_entity_locales : List CelRow
  actions : List ActionRow
  next_translation_id : Nat
  next_entity_id : Nat
deriving DecidableEq, Repr

/-- The `key or string` fallback: Python `or` on strings falls through on the empty
string. -/
def canonKey (k s : String) : String := if k = "" then s else k

/-- The rewrite `path[:-1] if path.endswith(".pot") else path`. -/
def stripPot (p : String) : String :=
  if List.isSuffixOf ".pot".toList p.toList then String.mk p.toList.dropLast else p

/-- os.path.relpath, modelled for the forms the sync passes it: the root is
"." (sync_project passes `relpath(paths.ref_root, ref_checkout.path)`, which
is "." when they coincide) or an ancestor directory prefix of the path. -/
def relpathModel (p root : String) : String :=
  if root = "." ∨ root = "" then p
  else if List.isPrefixOf (root.toList ++ ['/']) p.toList
  then String.mk (p.toList.drop (root.toList.length + 1))
  else p

/-! ## Translation reconciler: sync_translations_from_repo.py -/

/-- The `plural_form -> string` dict of one parsed translation. -/
abbrev Strings := List (Option Nat × String)

/-- The map `(entity.id, locale.id) -> (plural_form -> string, fuzzy)`. -/
abbrev Repo := List ((Nat × Nat) × (Strings × Bool))

/-- The map `(db_path, tx.key, locale.id) -> (plural_form -> string, fuzzy)`. -/
abbrev TransMap := List ((String × String × Nat) × (Strings × Bool))

/-- One parsed translation of a target resource (VCSTranslation). -/
structure RepoTx where
  key : String
  strings : Strings
  fuzzy : Bool
deriving DecidableEq, Repr

/-- One path of a target checkout delta, together with the outcome of the
external calls made for it: `paths.find_reference` (the reference path and
the path variables) and `parse` (the parsed translations, or any raised
exception). -/
structure TargetFile where
  path : String
  ref : Option (String × List (String × String))
  parse : Except Unit (List RepoTx)
deriving Repr

/-- A checkout as consumed by the translation reconciler: its source flag
(`co != ref_checkout` is modelled as `!is_source`, there being exactly one
reference checkout) and its delta. -/
structure TargetCheckout where
  is_source : Bool
  path : String
  changed : List TargetFile
  removed : List TargetFile
deriving Repr

/-- External capabilities: moz.l10n parse_android_locale. -/
structure SyncEnv where
  android : String → Option String

/-- get_path_locale (sync_translations_from_repo.py lines 336-342). -/
def get_path_locale (env : SyncEnv) (pvars : List (String × String)) : Option String :=
  match alookup pvars "locale" with
  | some v => some v
  | none =>
    match alookup pvars "android_locale" with
    | some v => env.android v
    | none => none

/-- Modelled from the spec: moz.l10n.resource.bilingual_extensions is not
under src/; §6 and the glossary give the bilingual format set as po and
xliff. -/
def bilingual_extensions : List String := [".po", ".pot", ".xliff"]

/-- os.path.splitext extension (".ext" of the last dot, "" when there is
none); leading-dot filenames are not exercised by the model. -/
def extOf (p : String) : String :=
  let rev := p.toList.reverse
  let ext := rev.takeWhile (fun c => c ≠ '.')
  if ext.length = rev.length then "" else String.mk ('.' :: ext.reverse)

/-- delete_removed_translated_resources (lines 38-66): accumulate
`(db_path, locale_code)` deletion predicates over the removed bilingual
paths of the non-reference checkouts, then delete the matching
TranslatedResource rows (skipped when the predicate is empty). -/
def delete_removed_translated_resources (db : Db) (cos : List TargetCheckout)
    (refRoot : String) (env : SyncEnv) : Db :=
  let preds := cos.foldl (fun acc co =>
    if co.is_source then acc
    else acc ++ co.removed.filterMap fun f =>
      if bilingual_extensions.contains (extOf f.path) then
        match f.ref with
        | some (refPath, pvars) =>
          match get_path_locale env pvars with
          | some lc => some (stripPot (relpathModel refPath refRoot), lc)
          | none => none
        | none => none
      else none) []
  if preds.isEmpty then db
  else { db with translated_resources := db.translated_resources.filter fun tr =>
    !(preds.any fun pl => decide (tr.resource_path = pl.1 ∧ tr.locale_code = pl.2)) }

/-- Accumulator of the parse loop of find_updates_from_repo_to_db
(lines 84-114). -/
structure Collected where
  resource_paths : List String
  translated_resources : List (String × Nat)
  tmap : TransMap
deriving Repr

/-- One changed target path (lines 91-114): resolve the reference, look the
locale up, parse (skipping on any exception), then record the db path and
merge the parsed translations into the map. -/
def collectFile (locales : List (String × LocaleRow)) (refRoot : String)
    (env : SyncEnv) (acc : Collected) (f : TargetFile) : Collected :=
  match f.ref with
  | none => acc
  | some (refPath, pvars) =>
    match (get_path_locale env pvars).bind (alookup locales) with
    | none => acc
    | some loc =>
      match f.parse with
      | .error _ => acc
      | .ok txs =>
        let db_path := stripPot (relpathModel refPath refRoot)
        { resource_paths := acc.resource_paths ++ [db_path],
          translated_resources := acc.translated_resources ++ [(db_path, loc.id)],
          tmap := txs.foldl
            (fun m tx => aset m (db_path, tx.key, loc.id) (tx.strings, tx.fuzzy)) acc.tmap }

/-- The parse loop of find_updates_from_repo_to_db over all non-reference
checkouts (lines 89-114). -/
def collectCheckouts (locales : List (String × LocaleRow)) (refRoot : String)
    (env : SyncEnv) (cos : List TargetCheckout) : Collected :=
  cos.foldl (fun acc co =>
    if co.is_source then acc else co.changed.foldl (collectFile locales refRoot env) acc)
    ⟨[], [], []⟩

/-- The `entity` foreign-key dereference of a Translation/ChangedEntityLocale row
(an inner join: rows with a dangling key drop out of `.values()`). -/
def entityOf (db : Db) (eid : Nat) : Option EntityRow :=
  db.entities.find? (fun e => e.id == eid)

/-- The `(resourcePath, key|string, localeId, pluralForm, string)` projection
of the approved-or-pretranslated translations matched by `tr_q`
(lines 125-142). -/
def approvedRows (db : Db) (resources : List (String × ResourceRow))
    (trs : List (String × Nat)) : List (String × String × Nat × Option Nat × String) :=
  db.translations.filterMap fun t =>
    if t.approved || t.pretranslated then
      match entityOf db t.entity_id with
      | some e =>
        if trs.any (fun pl =>
            match alookup resources pl.1 with
            | some r => decide (e.resource_path = r.path ∧ t.locale_id = pl.2)
            | none => false)
        then some (e.resource_path, canonKey e.key e.string, t.locale_id, t.plural_form, t.string)
        else none
      | none => none
    else none

/-- Strip one exact repo/DB match (lines 143-156): when the queried string
equals the repo string for that plural form, drop the plural-form entry, or
the whole key when it was the last one. -/
def stripRow (tm : TransMap) (row : String × String × Nat × Option Nat × String) : TransMap :=
  let (p, k, lid, pf, s) := row
  match alookup tm (p, k, lid) with
  | none => tm
  | some (strings, fz) =>
    if alookup strings pf = some s then
      if strings.length > 1 then aset tm (p, k, lid) (adel strings pf, fz)
      else adel tm (p, k, lid)
    else tm

/-- Database-wins pass (lines 160-171): for every ChangedEntityLocale row of
the project, delete its `(path, key|string, locale)` key from the map. -/
def celStrip (db : Db) : TransMap → List CelRow → TransMap
  | tm, [] => tm
  | tm, c :: rest =>
    match entityOf db c.entity_id with
    | none => celStrip db tm rest
    | some e => celStrip db (adel tm (e.resource_path, canonKey e.key e.string, c.locale_id)) rest

/-- Entity resolution (lines 175-193). Building `entity_q` subscripts
`resources[db_path]`, which raises KeyError when a remaining db path has no
Resource row; then each translation key resolves through the
`(resource path, key|string) -> id` dict, unresolved keys dropping out. -/
def resolveEntities (db : Db) (resources : List (String × ResourceRow))
    (tm : TransMap) : Except SyncErr Repo :=
  if tm.any (fun kv => (alookup resources kv.1.1).isNone) then .error .keyError
  else
    let matched := db.entities.filter fun e => tm.any fun kv =>
      match alookup resources kv.1.1 with
      | some r => decide (e.resource_path = r.path) &&
          (decide (e.key = kv.1.2.1) || (decide (e.key = "") && decide (e.string = kv.1.2.1)))
      | none => false
    let entsDict := matched.foldl
      (fun m e => aset m (e.resource_path, canonKey e.key e.string) e.id) []
    .ok (tm.foldl (fun m kv =>
      match alookup entsDict (kv.1.1, kv.1.2.1) with
      | some eid => aset m (eid, kv.1.2.2) kv.2
      | none => m) [])

/-- find_updates_from_repo_to_db (lines 69-193): parse loop, exact-match
strip, database-wins strip, entity resolution, with the early `None` returns
when the map empties out. -/
def find_updates_from_repo_to_db (db : Db) (locales : List (String × LocaleRow))
    (cos : List TargetCheckout) (refRoot : String) (env : SyncEnv) :
    Except SyncErr (Option Repo) :=
  let col := collectCheckouts locales refRoot env cos
  if col.tmap.isEmpty then .ok none
  else
    let resources := db.resources.foldl (fun m r =>
      if col.resource_paths.contains r.path then aset m r.path r else m) []
    let tm1 := (approvedRows db resources col.translated_resources).foldl stripRow col.tmap
    if tm1.isEmpty then .ok none
    else
      let tm2 := celStrip db tm1 db.changed_entity_locales
      if tm2.isEmpty then .ok none
      else
        match resolveEntities db resources tm2 with
        | .error e => .error e
        | .ok res => .ok (some res)

/-- Does a translation row match the `matching_suggestions_q` disjunction
built from the repo map (lines 205-213)? -/
def txMatchesRepo (repo : Repo) (t : TranslationRow) : Bool :=
  repo.any fun kv => kv.2.1.any fun ps =>
    decide (t.entity_id = kv.1.1 ∧ t.locale_id = kv.1.2 ∧
      t.plural_form = ps.1 ∧ t.string = ps.2)

/-- One disjunct of `translations_to_reject`:
`Q(entity, locale, plural_form) & ~Q(id=...)`. -/
structure RejectEntry where
  entity_id : Nat
  locale_id : Nat
  plural_form : Option Nat
  exclude_id : Nat
deriving DecidableEq, Repr

/-- Does a translation row match the accumulated rejection predicate? -/
def matchesReject (entries : List RejectEntry) (t : TranslationRow) : Bool :=
  entries.any fun en => decide (t.entity_id = en.entity_id ∧ t.locale_id = en.locale_id ∧
    t.plural_form = en.plural_form ∧ t.id ≠ en.exclude_id)

/-- The column writes of the rejection update (lines 318-328). -/
def rejectTx (now : Nat) (t : TranslationRow) : TranslationRow :=
  { t with
    active := false
    approved := false
    approved_user := none
    approved_date := none
    rejected := true
    rejected_user := none
    rejected_date := some now
    pretranslated := false
    fuzzy := false }

/-- What update_db_translations may do to one timestamp column of one row:
leave it unchanged, clear it to NULL, or set it to the sync-start now. The
source never writes any other concrete time into a Translation row: the only
timestamp literals it assigns are `now` (lines 229, 243, 279, 286, 325) and
`None` (lines 246, 322). -/
def stampWrite (now : Nat) (old new : Option Nat) : Prop :=
  new = old ∨ new = none ∨ new = some now

/-- Result of the suggestion-approval loop (lines 221-258). -/
structure ApproveOut where
  repo : Repo
  updated : List TranslationRow
  entries : List RejectEntry
  acts : List ActionRow
  dirty : Bool
deriving Repr

/-- The suggestion-approval loop of update_db_translations (lines 221-258):
each matched suggestion looks its `(entity_id, locale_id)` key up in the repo
dict (KeyError when an earlier suggestion already deleted it), deletes it,
clears a rejection, goes active with the repo fuzzy flag, and, when not
fuzzy, is approved and schedules the rejection of its siblings. `dirty`
records whether any dirty field accumulated across the loop. `amb` is the
wall-clock time at which an ActionLog row is built: only the
TRANSLATION_CREATED actions of the create step pass an explicit created_at,
so these rows carry the model default instead of the sync `now`. -/
def approveSuggestions (now amb : Nat) : Repo → List TranslationRow → Except SyncErr ApproveOut
  | repo, [] => .ok ⟨repo, [], [], [], false⟩
  | repo, t :: rest =>
    match alookup repo (t.entity_id, t.locale_id) with
    | none => .error .keyError
    | some (_, fz) =>
      let repo1 := adel repo (t.entity_id, t.locale_id)
      let unrej :=
        if t.rejected then
          ({ t with
              rejected := false
              unrejected_user := none
              unrejected_date := some now },
            [ActionRow.mk .unrejected t.id amb])
        else (t, ([] : List ActionRow))
      let t2 := { unrej.1 with active := true, fuzzy := fz }
      let appr :=
        if fz then (t2, ([] : List RejectEntry), unrej.2)
        else
          ({ t2 with
              approved := true
              approved_user := none
              approved_date := some now
              pretranslated := false
              unapproved_user := none
              unapproved_date := none },
            [RejectEntry.mk t.entity_id t.locale_id t.plural_form t.id],
            unrej.2 ++ [ActionRow.mk .approved t.id amb])
      match approveSuggestions now amb repo1 rest with
      | .error e => .error e
      | .ok out => .ok ⟨out.repo, appr.1 :: out.updated, appr.2.1 ++ out.entries,
          appr.2.2 ++ out.acts, (decide (appr.1 ≠ t)) || out.dirty⟩

/-- A Translation row created by the create step (lines 273-287): active,
dated now, and either fuzzy or approved with approvedDate now; every other
column takes the model default. -/
def newTranslation (now eid lid : Nat) (fz : Bool) (id : Nat) (pf : Option Nat)
    (s : String) : TranslationRow :=
  { id := id
    entity_id := eid
    locale_id := lid
    plural_form := pf
    string := s
    active := true
    approved := !fz
    pretranslated := false
    fuzzy := fz
    rejected := false
    date := now
    approved_date := if fz then none else some now
    rejected_date := none
    unrejected_date := none
    unapproved_date := none
    approved_user := none
    rejected_user := none
    unrejected_user := none
    unapproved_user := none }

/-- Create step, inner loop over the plural forms of one remaining key
(lines 272-295); bulk_create assigns sequential primary keys from `n`. -/
def createForKey (now eid lid : Nat) (fz : Bool) : Strings → Nat →
    List TranslationRow × List ActionRow × Nat
  | [], n => ([], [], n)
  | (pf, s) :: rest, n =>
    let tx := newTranslation now eid lid fz n pf s
    let rec2 := createForKey now eid lid fz rest (n + 1)
    (tx :: rec2.1, ActionRow.mk .created tx.id now :: rec2.2.1, rec2.2.2)

/-- Create step, outer loop over the remaining repo keys (lines 268-304). -/
def createRows (now : Nat) : Repo → Nat → List TranslationRow × List ActionRow × Nat
  | [], n => ([], [], n)
  | ((eid, lid), (strings, fz)) :: rest, n =>
    let one := createForKey now eid lid fz strings n
    let rest2 := createRows now rest one.2.2
    (one.1 ++ rest2.1, one.2.1 ++ rest2.2.1, rest2.2.2)

/-- update_db_translations (lines 196-333). `amb` is the ambient wall-clock
value used for the ActionLog rows built without an explicit created_at.
The `bulk_update(suggestions, list(dirty_fields))` of line 259 raises
ValueError whenever no dirty field accumulated (Django refuses an empty
field-name list), in particular whenever no suggestion matched; the raise
points (that ValueError and the KeyError of the loop) precede the first
database write, so an error leaves the state untouched. The bulk update
writes each suggestion object back to its row, the create step appends new
rows, the rejection update rewrites the matching non-rejected rows, and the
accumulated actions are bulk-inserted. -/
def update_db_translations (db : Db) (repo : Repo) (now amb : Nat) :
    Except SyncErr (Db × List ActionRow) :=
  let suggestions := db.translations.filter fun t =>
    txMatchesRepo repo t && !t.approved && !t.pretranslated
  match approveSuggestions now amb repo suggestions with
  | .error e => .error e
  | .ok out =>
    if !out.dirty then .error .valueError
    else
      let trs1 := db.translations.map fun t =>
        match out.updated.find? (fun u => u.id == t.id) with
        | some u => u
        | none => t
      let created := createRows now out.repo db.next_translation_id
      let newRows := created.1
      let acts2 := created.2.1
      let nid := created.2.2
      let entries := out.entries ++ newRows.map (fun t =>
        RejectEntry.mk t.entity_id t.locale_id t.plural_form t.id)
      let trs2 := trs1 ++ newRows
      let rejectedRows := if entries.isEmpty then [] else
        trs2.filter fun t => !t.rejected && matchesReject entries t
      let acts3 := rejectedRows.map fun t => ActionRow.mk .rejected t.id amb
      let trs3 := if entries.isEmpty then trs2 else
        trs2.map fun t => if !t.rejected && matchesReject entries t then rejectTx now t else t
      let acts := out.acts ++ acts2 ++ acts3
      .ok ({ db with
             translations := trs3
             actions := db.actions ++ acts
             next_translation_id := nid }, acts)

/-- sync_translations_from_repo (lines 22-35): delete removed translated
resources, compute the repo updates, and apply them when the result is
truthy (neither None nor empty). -/
def sync_translations_from_repo (db : Db) (locales : List (String × LocaleRow))
    (cos : List TargetCheckout) (refRoot : String) (env : SyncEnv) (now amb : Nat) :
    Except SyncErr (Db × List ActionRow) :=
  let db0 := delete_removed_translated_resources db cos refRoot env
  match find_updates_from_repo_to_db db0 locales cos refRoot env with
  | .error e => .error e
  | .ok none => .ok (db0, [])
  | .ok (some repo) =>
    if repo.isEmpty then .ok (db0, [])
    else update_db_translations db0 repo now amb

/-- The database state and action rows after sync_translations_from_repo,
also when it raises: find_updates_from_repo_to_db performs no write, and
every raise point of update_db_translations precedes its first database
write, so a crashed call leaves the state produced by
delete_removed_translated_resources. -/
def translationSyncOutcome (db : Db) (locales : List (String × LocaleRow))
    (cos : List TargetCheckout) (refRoot : String) (env : SyncEnv) (now amb : Nat) :
    Db × List ActionRow :=
  match sync_translations_from_repo db locales cos refRoot env now amb with
  | .ok r => r
  | .error _ => (delete_removed_translated_resources db cos refRoot env, [])

/-! ## Entity reconciler: sync_entities_from_repo.py -/

/-- A parsed source translation (SilmeEntity, the approximate type of the
parser output). `group_comments`/`resource_comments` are duck-typed optional
attributes: `none` models the attribute being absent (`hasattr` false).
`order` is `none` when absent or None; Python `or` also treats a present 0
as falsy. -/
structure SilmeEntity where
  key : String
  source_string : String
  source_string_plural : String
  comments : List String
  group_comments : Option (List String)
  resource_comments : Option (List String)
  source : String
  order : Option Nat
  context : String
deriving DecidableEq, Repr

/-- A parsed source resource (SilmeResource): only the length of `entities`
is consumed, and `translations` feeds entity_from_source. -/
structure SilmeResource where
  entities : List Unit
  translations : List SilmeEntity
deriving DecidableEq, Repr

/-- One path of the reference checkout delta together with its parse
outcome; the `except ParseError` of lines 32-37 maps an error to None. -/
structure SourceFile where
  path : String
  parse : Except Unit SilmeResource
deriving Repr

/-- entity_from_source (lines 199-218). The constructor arguments evaluate
in order, so `"\n".join(tx.group_comments if hasattr(...) else None)` raises
TypeError (str.join of None) before resource_comment is looked at when the
attribute is absent, and likewise for resource_comments. `order` is
`tx.order or idx`. The primary key is 0 until bulk_create assigns one. -/
def entity_from_source (resource_path : String) (now idx : Nat) (tx : SilmeEntity) :
    Except SyncErr EntityRow :=
  match tx.group_comments with
  | none => .error .typeError
  | some gcs =>
    match tx.resource_comments with
    | none => .error .typeError
    | some rcs =>
      .ok { id := 0
            resource_path := resource_path
            string := tx.source_string
            string_plural := tx.source_string_plural
            key := tx.key
            comment := String.intercalate "\n" tx.comments
            source := tx.source
            group_comment := String.intercalate "\n" gcs
            resource_comment := String.intercalate "\n" rcs
            context := tx.context
            order := match tx.order with
              | none => idx
              | some n => if n = 0 then idx else n
            obsolete := false
            date_created := now
            date_obsoleted := none }

/-- entities_same (lines 221-230). -/
def entities_same (a b : EntityRow) : Bool :=
  decide (a.string = b.string ∧ a.string_plural = b.string_plural ∧
    a.comment = b.comment ∧ a.source = b.source ∧ a.group_comment = b.group_comment ∧
    a.resource_comment = b.resource_comment ∧ a.context = b.context)

/-- Modelled from the spec: the Resource model is not under src/; §3 lists
its attributes (path, format, totalStrings, order) beside the primary key
and project foreign key. Only the absence of one-character field names
matters to the bulk_update calls. -/
def resourceFieldNames : List String :=
  ["id", "project", "path", "format", "total_strings", "order"]

/-- Modelled from the spec: the Entity model is not under src/; §3 lists its
attributes. -/
def entityFieldNames : List String :=
  ["id", "resource", "string", "string_plural", "key", "comment", "source",
   "group_comment", "resource_comment", "context", "order", "obsolete",
   "date_created", "date_obsoleted"]

/-- Iterating a Python string yields its characters as one-character
strings: `bulk_update(objs, ("total_strings"))` passes the parenthesized
plain string, not a one-element tuple. -/
def pyStrIter (s : String) : List String := s.toList.map (fun c => String.mk [c])

/-- Django bulk_update argument validation, which runs before any row is
touched: an empty field-name list raises ValueError, and every name must
resolve to a model field (resolution happens before the empty-object early
return), else FieldDoesNotExist. -/
def bulkUpdateCheck (fields : List String) (valid : List String) : Except SyncErr Unit :=
  if fields.isEmpty then .error .valueError
  else if fields.any (fun f => !valid.contains f) then .error .fieldDoesNotExist
  else .ok ()

/-- remove_resources (lines 49-64): translate the removed paths, delete the
matching Resource rows and, by cascade, their entities, the translations
and changed-entity-locale rows of those entities, and their translated
resources; return the paths actually found. -/
def remove_resources (db : Db) (refRoot : String) (removed : List String) :
    List String × Db :=
  if removed.isEmpty then ([], db)
  else
    let removed_paths0 := removed.map fun p => stripPot (relpathModel p refRoot)
    let removed_resources := db.resources.filter fun r => removed_paths0.contains r.path
    let removed_paths := removed_resources.map (·.path)
    if removed_paths.isEmpty then (removed_paths, db)
    else
      let gone := fun p => removed_resources.any fun r => decide (r.path = p)
      let goneEnt := fun (eid : Nat) =>
        match entityOf db eid with
        | some e => gone e.resource_path
        | none => false
      (removed_paths,
        { db with
          resources := db.resources.filter fun r => !(gone r.path)
          entities := db.entities.filter fun e => !(gone e.resource_path)
          translations := db.translations.filter fun t => !(goneEnt t.entity_id)
          translated_resources := db.translated_resources.filter fun tr => !(gone tr.resource_path)
          changed_entity_locales := db.changed_entity_locales.filter fun c => !(goneEnt c.entity_id) })

/-- The `next_entities` comprehension of update_resources (lines 85-92) for
one changed resource: every parsed translation goes through
entity_from_source with index 0, keyed by `(path, key or string)` with
dict last-wins semantics. -/
def nextEntitiesRes (path : String) (now : Nat) :
    List ((String × String) × EntityRow) → List SilmeEntity →
    Except SyncErr (List ((String × String) × EntityRow))
  | acc, [] => .ok acc
  | acc, tx :: rest =>
    match entity_from_source path now 0 tx with
    | .error e => .error e
    | .ok ent => nextEntitiesRes path now (aset acc (path, canonKey ent.key ent.string) ent) rest

/-- The `next_entities` comprehension of update_resources (lines 85-92) over
all changed resources. -/
def nextEntities (updates : List (String × Option SilmeResource)) (now : Nat) :
    List ResourceRow → List ((String × String) × EntityRow) →
    Except SyncErr (List ((String × String) × EntityRow))
  | [], acc => .ok acc
  | cr :: rest, acc =>
    let txs := match alookup updates cr.path with
      | some (some res) => res.translations
      | _ => []
    match nextEntitiesRes cr.path now acc txs with
    | .error e => .error e
    | .ok acc2 => nextEntities updates now rest acc2

/-- bulk_create assigns sequential primary keys to the new entity rows. -/
def assignEntityIds : Nat → List EntityRow → List EntityRow × Nat
  | n, [] => ([], n)
  | n, e :: es =>
    let rest2 := assignEntityIds (n + 1) es
    ({ e with id := n } :: rest2.1, rest2.2)

/-- update_resources (lines 67-134). The loop of lines 75-76 dereferences
`updates[cr.path].entities`, raising AttributeError when the parse of an
existing resource failed (its update is None); then line 77 calls
`bulk_update(changed_resources, ("total_strings"))`, whose field names are
the characters of the string, raising FieldDoesNotExist. The remainder
(reached by no input, but modelled through): write the new totals, obsolete
the disappeared entities, bulk-update the changed ones — passing freshly
constructed objects without a primary key, which raises ValueError when any
exists — and insert the new ones. -/
def update_resources (db : Db) (updates : List (String × Option SilmeResource)) (now : Nat) :
    Except SyncErr (List String × Db) :=
  if updates.isEmpty then .ok ([], db)
  else
    let changed_resources := db.resources.filter fun r => (alookup updates r.path).isSome
    if changed_resources.any (fun r => alookup updates r.path = some none) then .error .attrError
    else
      match bulkUpdateCheck (pyStrIter "total_strings") resourceFieldNames with
      | .error e => .error e
      | .ok _ =>
        let newTotals := db.resources.map fun r =>
          match alookup updates r.path with
          | some (some res) => { r with total_strings := res.entities.length }
          | _ => r
        let db1 := { db with resources := newTotals }
        let prev := (db1.entities.filter fun e =>
          !e.obsolete && changed_resources.any fun r => decide (r.path = e.resource_path)).foldl
          (fun m e => aset m (e.resource_path, canonKey e.key e.string) e) []
        match nextEntities updates now changed_resources [] with
        | .error e => .error e
        | .ok next =>
          let obsRows := prev.filterMap fun ke =>
            if (alookup next ke.1).isNone
            then some { ke.2 with obsolete := true, date_obsoleted := some now }
            else none
          match bulkUpdateCheck ["obsolete", "date_obsoleted"] entityFieldNames with
          | .error e => .error e
          | .ok _ =>
            let obsApplied := db1.entities.map fun e =>
              match obsRows.find? (fun o => o.id == e.id) with
              | some o => o
              | none => e
            let db2 := { db1 with entities := obsApplied }
            let modified := next.filter fun ke =>
              match alookup prev ke.1 with
              | some pe => !entities_same ke.2 pe
              | none => false
            if !modified.isEmpty then .error .valueError
            else
              let inserted0 := next.filterMap fun ke =>
                if (alookup prev ke.1).isNone then some ke.2 else none
              let insPair := assignEntityIds db2.next_entity_id inserted0
              .ok (changed_resources.map (·.path),
                { db2 with entities := db2.entities ++ insPair.1, next_entity_id := insPair.2 })

/-- External path capabilities used by add_resources: `paths.target_path`,
`paths.target_locales` and os.path.isfile. -/
structure PathsModel where
  target_path : String → String → Option String
  target_locales : String → List String
  isfile : String → Bool

/-- Modelled from the spec: `Resource.get_path_format` is not under src/;
§3 derives the format from the path extension. -/
def get_path_format (p : String) : String := (extOf p).drop 1

/-- Lexicographic order on character sequences, by character code. -/
def lexLeB : List Char → List Char → Bool
  | [], _ => true
  | _ :: _, [] => false
  | a :: as, b :: bs =>
    if a.toNat < b.toNat then true
    else if b.toNat < a.toNat then false
    else lexLeB as bs

/-- Lexicographic string order, the model of the database collation behind
`order_by("path")`. -/
def strLe (a b : String) : Prop := lexLeB a.toList b.toList = true

/-- The path order used by `order_by("path")`. -/
def pathLe (a b : ResourceRow) : Prop := strLe a.path b.path

instance : DecidableRel strLe := fun a b =>
  inferInstanceAs (Decidable (lexLeB a.toList b.toList = true))

instance : DecidableRel pathLe := fun a b => inferInstanceAs (Decidable (strLe a.path b.path))

/-- The `for idx, r in enumerate(ordered_resources): r.order = idx` loop of
add_resources (lines 159-160). -/
def assignOrders : Nat → List ResourceRow → List ResourceRow
  | _, [] => []
  | i, r :: rs => { r with order := i } :: assignOrders (i + 1) rs

/-- The entity bulk_create generator of add_resources (lines 163-169):
`entity_from_source(resource, now, idx, tx)` for every added resource and
every enumerated parsed translation. -/
def entitiesFromRes (path : String) (now : Nat) :
    Nat → List SilmeEntity → Except SyncErr (List EntityRow)
  | _, [] => .ok []
  | idx, tx :: rest =>
    match entity_from_source path now idx tx with
    | .error e => .error e
    | .ok ent =>
      match entitiesFromRes path now (idx + 1) rest with
      | .error e => .error e
      | .ok es => .ok (ent :: es)

/-- The entity bulk_create generator of add_resources over all added
resources. -/
def addedEntities (updates : List (String × Option SilmeResource)) (now : Nat) :
    List ResourceRow → Except SyncErr (List EntityRow)
  | [] => .ok []
  | r :: rest =>
    let txs := match alookup updates r.path with
      | some (some res) => res.translations
      | _ => []
    match entitiesFromRes r.path now 0 txs with
    | .error e => .error e
    | .ok es =>
      match addedEntities updates now rest with
      | .error e => .error e
      | .ok es2 => .ok (es ++ es2)

/-- is_translated_resource (lines 171-179). -/
def is_translated_resource (locale_map : List (String × LocaleRow)) (pm : PathsModel)
    (r : ResourceRow) (lc : String) : Bool :=
  match alookup locale_map lc with
  | none => false
  | some _ =>
    if r.format = "po" ∨ r.format = "xliff" then
      match pm.target_path r.path lc with
      | some tp => pm.isfile tp
      | none => false
    else true

/-- add_resources (lines 137-196): build Resource rows for the non-None
updates not already in the database (their `order` column takes the model
default 0 until reassigned), bulk-create them, recompute `order` for all
project resources as the enumeration of the path-ordered list, bulk-create
the new entities, and seed TranslatedResource rows. -/
def add_resources (db : Db) (locale_map : List (String × LocaleRow)) (pm : PathsModel)
    (updates : List (String × Option SilmeResource)) (changed_paths : List String)
    (now : Nat) : Except SyncErr (List String × Db) :=
  let added0 := updates.filterMap fun pu =>
    match pu.2 with
    | some res =>
      if changed_paths.contains pu.1 then none
      else some (ResourceRow.mk pu.1 (get_path_format pu.1) res.entities.length 0)
    | none => none
  if added0.isEmpty then .ok ([], db)
  else
    let db1 := { db with resources := db.resources ++ added0 }
    let ordered := assignOrders 0 (List.insertionSort pathLe db1.resources)
    let db2 := { db1 with resources := ordered }
    match addedEntities updates now added0 with
    | .error e => .error e
    | .ok ents0 =>
      let entsPair := assignEntityIds db2.next_entity_id ents0
      let db3 := { db2 with entities := db2.entities ++ entsPair.1, next_entity_id := entsPair.2 }
      let trs := added0.foldl (fun acc r =>
        acc ++ (pm.target_locales r.path).filterMap fun lc =>
          if is_translated_resource locale_map pm r lc then
            match alookup locale_map lc with
            | some loc => some (TranslatedResourceRow.mk r.path loc.id loc.code r.total_strings)
            | none => none
          else none) []
      .ok (added0.map (·.path),
        { db3 with translated_resources := db3.translated_resources ++ trs })

/-- sync_entities_from_repo (lines 18-46): build the updates dict from the
changed reference paths (a ParseError maps the db path to None), then run
remove_resources, update_resources and add_resources inside one
transaction: an error rolls every phase back and leaves the database
untouched. -/
def sync_entities_from_repo (db : Db) (refRoot : String) (changed : List SourceFile)
    (removed : List String) (now : Nat) (locale_map : List (String × LocaleRow))
    (pm : PathsModel) :
    Except SyncErr (Db × (List String × List String × List String)) :=
  let updates := changed.foldl (fun m f =>
    aset m (relpathModel (stripPot f.path) refRoot) f.parse.toOption) []
  let removal := remove_resources db refRoot removed
  let removed_paths := removal.1
  let db1 := removal.2
  match update_resources db1 updates now with
  | .error e => .error e
  | .ok (changed_paths, db2) =>
    match add_resources db2 locale_map pm updates changed_paths now with
    | .error e => .error e
    | .ok (added_paths, db3) => .ok (db3, (added_paths, changed_paths, removed_paths))

/-! ## Derived observations -/

/-- The database state after update_db_translations, also when it raises:
every raise point precedes the first database write. -/
def updateOutcome (db : Db) (repo : Repo) (now amb : Nat) : Db :=
  match update_db_translations db repo now amb with
  | .ok r => r.1
  | .error _ => db

/-- The ActionLog rows produced by update_db_translations (empty when it
raises, the raise points preceding the ActionLog bulk_create). -/
def actsOutcome (db : Db) (repo : Repo) (now amb : Nat) : List ActionRow :=
  match update_db_translations db repo now amb with
  | .ok r => r.2
  | .error _ => []

/-- The number of active Translation rows of one
`(entity, locale, pluralForm)` triple. -/
def countActive (db : Db) (e l : Nat) (pf : Option Nat) : Nat :=
  (db.translations.filter fun t =>
    t.active && decide (t.entity_id = e ∧ t.locale_id = l ∧ t.plural_form = pf)).length

/-- The at-most-one-active invariant (§8). -/
def atMostOneActive (db : Db) : Prop :=
  ∀ e l pf, countActive db e l pf ≤ 1

/-- The Translation rows of one `(entity, locale)` pair, in row order. -/
def rowsAt (db : Db) (e l : Nat) : List TranslationRow :=
  db.translations.filter fun t => decide (t.entity_id = e ∧ t.locale_id = l)

/-! ## Concrete states exercising the claims -/

/-- The empty single-project database. -/
def emptyDb : Db :=
  { resources := []
    entities := []
    translations := []
    translated_resources := []
    changed_entity_locales := []
    actions := []
    next_translation_id := 1
    next_entity_id := 1 }

/-- A Translation row with the given key columns and every flag clear. -/
def mkTx (id eid lid : Nat) (pf : Option Nat) (s : String) : TranslationRow :=
  { id := id
    entity_id := eid
    locale_id := lid
    plural_form := pf
    string := s
    active := false
    approved := false
    pretranslated := false
    fuzzy := false
    rejected := false
    date := 0
    approved_date := none
    rejected_date := none
    unrejected_date := none
    unapproved_date := none
    approved_user := none
    rejected_user := none
    unrejected_user := none
    unapproved_user := none }

/-- A parsed source translation with the given key/string and every
optional attribute present. -/
def mkSrcTx (k s : String) : SilmeEntity :=
  { key := k
    source_string := s
    source_string_plural := ""
    comments := []
    group_comments := some []
    resource_comments := some []
    source := ""
    order := none
    context := "" }

/-- A PathsModel with no targets. -/
def pmNone : PathsModel :=
  { target_path := fun _ _ => none
    target_locales := fun _ => []
    isfile := fun _ => false }

/-- C3 fixture: an approved active translation and a matching inactive
suggestion for the same `(entity, locale, pluralForm)`. -/
def apprBar : TranslationRow :=
  { mkTx 1 10 20 (some 0) "bar" with active := true, approved := true }

/-- C3 fixture: the suggestion whose string the repo carries as fuzzy. -/
def suggFoo : TranslationRow := mkTx 2 10 20 (some 0) "foo"

/-- C3 fixture database. -/
def dbC3 : Db := { emptyDb with translations := [apprBar, suggFoo] }

/-- C3 fixture repo map: a fuzzy entry matching the suggestion. -/
def repoC3 : Repo := [((10, 20), ([(some 0, "foo")], true))]

/-- C5 fixture: two plural-form suggestions of one `(entity, locale)`. -/
def dbC5 : Db :=
  { emptyDb with translations := [mkTx 1 10 20 (some 0) "a", mkTx 2 10 20 (some 1) "b"] }

/-- C5 fixture repo map with both plural forms. -/
def repoC5 : Repo := [((10, 20), ([(some 0, "a"), (some 1, "b")], false))]

/-- C7 fixture: one matching suggestion, no siblings. -/
def dbC7 : Db := { emptyDb with translations := [mkTx 1 10 20 none "x"] }

/-- C7 fixture repo map. -/
def repoC7 : Repo := [((10, 20), ([(none, "x")], false))]

/-- C4/C8/C10 fixture: a database holding one already-synced resource. -/
def dbOneRes : Db := { emptyDb with resources := [ResourceRow.mk "a.po" "po" 2 0] }

/-- C8/C10 fixture: a parsed resource with two entities, one translation. -/
def resParsed : SilmeResource := { entities := [(), ()], translations := [mkSrcTx "new" "New"] }

/-- C6 fixture: a parsed translation whose group_comments attribute is
absent. -/
def txNoGroup : SilmeEntity := { mkSrcTx "k" "Hello" with group_comments := none }

/-- C10 fixture: an existing resource whose parsed update holds one new
translation with no order attribute. -/
def dbC10 : Db := { emptyDb with resources := [ResourceRow.mk "b.ftl" "ftl" 1 0] }

/-- C10 fixture parsed resource. -/
def resC10 : SilmeResource := { entities := [()], translations := [mkSrcTx "new" "New"] }

/-- C9 witness updates: two new resources, listed out of path order. -/
def updC9 : List (String × Option SilmeResource) :=
  [("b.po", some ⟨[()], []⟩), ("a.po", some ⟨[], []⟩)]

/-- C9 witness output state. -/
def dbC9out : Db := { emptyDb with resources := [⟨"a.po", "po", 0, 0⟩, ⟨"b.po", "po", 1, 1⟩] }

/-- C10 witness updates: one existing resource with two new parsed
translations, one with no order, one with order 0, in positions 0 and 1. -/
def updC10w : List (String × Option SilmeResource) :=
  [("c.po", some ⟨[], [mkSrcTx "k1" "A", { mkSrcTx "k2" "B" with order := some 0 }]⟩)]

/-- C10 witness changed resources. -/
def crsC10w : List ResourceRow := [⟨"c.po", "po", 0, 0⟩]

/-- C10 witness next_entities output. -/
def outC10w : List ((String × String) × EntityRow) :=
  (nextEntities updC10w 5 crsC10w []).toOption.getD []

/-- C2 witness entity. -/
def entC2 : EntityRow :=
  { id := 10
    resource_path := "a.po"
    string := "Hello"
    string_plural := ""
    key := "hello"
    comment := ""
    source := ""
    group_comment := ""
    resource_comment := ""
    context := ""
    order := 0
    obsolete := false
    date_created := 0
    date_obsoleted := none }

/-- C2 witness translation: the approved row the database keeps. -/
def txC2 : TranslationRow := { mkTx 1 10 20 none "Alt" with active := true, approved := true }

/-- C2 witness database: one resource, one entity, one approved
translation, and a ChangedEntityLocale row for `(10, 20)`. -/
def dbC2 : Db :=
  { emptyDb with
    resources := [⟨"a.po", "po", 1, 0⟩]
    entities := [entC2]
    translations := [txC2]
    changed_entity_locales := [⟨10, 20⟩] }

/-- C2 witness checkout: the repo carries a different string for the same
entity and locale. -/
def coC2 : TargetCheckout :=
  { is_source := false
    path := "t"
    changed := [⟨"de/a.po", some ("a.po", [("locale", "de")]),
      .ok [⟨"hello", [(none, "Neu")], false⟩]⟩]
    removed := [] }

/-! ## Theorems -/

theorem alookup_adel_ne {κ ν : Type} [DecidableEq κ] (m : List (κ × ν)) (k k' : κ)
    (h : k ≠ k') : alookup (adel m k') k = alookup m k := by
  induction m with
  | nil => rfl
  | cons kv m ih =>
    obtain ⟨a, b⟩ := kv
    by_cases hk : a = k'
    · subst hk
      have : k ≠ a := h
      simp [adel, alookup, this, ih]
    · by_cases hak : k = a
      · subst hak
        simp [adel, hk, alookup]
      · simp [adel, hk, alookup, hak, ih]

theorem alookup_adel_self {κ ν : Type} [DecidableEq κ] (m : List (κ × ν)) (k : κ) :
    alookup (adel m k) k = none := by
  induction m with
  | nil => rfl
  | cons kv m ih =>
    obtain ⟨a, b⟩ := kv
    by_cases hk : a = k
    · simp [adel, hk, ih]
    · have : k ≠ a := fun h => hk h.symm
      simp [adel, hk, alookup, this, ih]

theorem mem_adel {κ ν : Type} [DecidableEq κ] (m : List (κ × ν)) (k0 : κ) (kv : κ × ν)
    (h : kv ∈ adel m k0) : kv ∈ m := by
  induction m with
  | nil => simp [adel] at h
  | cons kv' m ih =>
    obtain ⟨a, b⟩ := kv'
    by_cases hk : a = k0
    · simp only [adel, hk, if_pos rfl] at h
      exact List.mem_cons_of_mem _ (ih h)
    · simp only [adel, hk, if_neg hk] at h
      rcases List.mem_cons.mp h with h | h
      · simp [h]
      · exact List.mem_cons_of_mem _ (ih h)

theorem alookup_mem {κ ν : Type} [DecidableEq κ] (m : List (κ × ν)) (k : κ) (v : ν)
    (h : alookup m k = some v) : (k, v) ∈ m := by
  induction m with
  | nil => simp [alookup] at h
  | cons kv m ih =>
    obtain ⟨a, b⟩ := kv
    by_cases hk : k = a
    · subst hk
      simp [alookup] at h
      simp [h]
    · simp [alookup, hk] at h
      exact List.mem_cons_of_mem _ (ih h)

/-- Keys present after an insert-or-replace fold step. -/
theorem mem_aset {κ ν : Type} [DecidableEq κ] (m : List (κ × ν)) (k k0 : κ) (v v0 : ν)
    (h : (k, v) ∈ aset m k0 v0) : (k, v) ∈ m ∨ (k = k0 ∧ v = v0) := by
  induction m with
  | nil =>
    simp [aset] at h
    exact Or.inr h
  | cons kv m ih =>
    obtain ⟨a, b⟩ := kv
    by_cases hk : k0 = a
    · subst hk
      simp [aset] at h
      rcases h with ⟨h1, h2⟩ | h
      · exact Or.inr ⟨h1, h2⟩
      · exact Or.inl (List.mem_cons_of_mem _ h)
    · simp [aset, hk] at h
      rcases h with ⟨h1, h2⟩ | h
      · subst h1; subst h2; exact Or.inl (List.mem_cons_self _ _)
      · rcases ih h with h | h
        · exact Or.inl (List.mem_cons_of_mem _ h)
        · exact Or.inr h

/-- lexLeB is total. -/
theorem lexLeB_total : ∀ as bs, lexLeB as bs = true ∨ lexLeB bs as = true := by
  intro as
  induction as with
  | nil => intro bs; left; rfl
  | cons a as ih =>
    intro bs
    cases bs with
    | nil => right; rfl
    | cons b bs =>
      rcases Nat.lt_trichotomy a.toNat b.toNat with h | h | h
      · left
        simp [lexLeB, h]
      · have h1 : ¬ a.toNat < b.toNat := by omega
        have h2 : ¬ b.toNat < a.toNat := by omega
        rcases ih bs with hl | hl
        · left
          simp [lexLeB, h1, h2, hl]
        · right
          simp [lexLeB, h1, h2, hl]
      · right
        simp [lexLeB, h]

/-- lexLeB is transitive. -/
theorem lexLeB_trans : ∀ as bs cs, lexLeB as bs = true → lexLeB bs cs = true →
    lexLeB as cs = true := by
  intro as
  induction as with
  | nil => intro bs cs _ _; rfl
  | cons a as ih =>
    intro bs cs hab hbc
    cases bs with
    | nil => simp [lexLeB] at hab
    | cons b bs =>
      cases cs with
      | nil => simp [lexLeB] at hbc
      | cons c cs =>
        simp only [lexLeB] at hab hbc ⊢
        by_cases hab1 : a.toNat < b.toNat
        · by_cases hbc1 : b.toNat < c.toNat
          · have : a.toNat < c.toNat := by omega
            simp [this]
          · by_cases hbc2 : c.toNat < b.toNat
            · simp [hab1, hbc1, hbc2] at hbc
            · have hbceq : b.toNat = c.toNat := by omega
              have : a.toNat < c.toNat := by omega
              simp [this]
        · by_cases hab2 : b.toNat < a.toNat
          · simp [hab1, hab2] at hab
          · have habeq : a.toNat = b.toNat := by omega
            by_cases hbc1 : b.toNat < c.toNat
            · have : a.toNat < c.toNat := by omega
              simp [this]
            · by_cases hbc2 : c.toNat < b.toNat
              · simp [hbc1, hbc2] at hbc
              · have h1 : ¬ a.toNat < c.toNat := by omega
                have h2 : ¬ c.toNat < a.toNat := by omega
                simp [hab1, hab2] at hab
                simp [hbc1, hbc2] at hbc
                simp [h1, h2]
                exact ih bs cs hab hbc

/-- Filtering on a conjunction keeps no more elements than filtering on one
conjunct. -/
theorem filter_and_le {α : Type} (p q : α → Bool) (l : List α) :
    (l.filter fun a => p a && q a).length ≤ (l.filter p).length := by
  induction l with
  | nil => simp
  | cons a l ih =>
    by_cases hp : p a
    · by_cases hq : q a
      · simp [List.filter, hp, hq]
        omega
      · simp [List.filter, hp, hq]
        omega
    · simp [List.filter, hp, ih]

/-- Claim C4 (code_bug): a reference parse failure is not local when the
resource of the failed path already exists in the database: update_resources
dereferences the None update (`updates[cr.path].entities`), the whole sync
raises AttributeError and the transaction rolls back, instead of skipping
the file and processing the rest. -/
theorem c4_reference_parse_failure_aborts_sync :
    sync_entities_from_repo dbOneRes "." [SourceFile.mk "a.po" (.error ())] [] 5 [] pmNone
      = .error .attrError := by rfl

/-- Claim C5 (code_bug): when two suggestion rows (two plural forms of one
entity) both match the repo strings of one `(entityId, localeId)` key, the
second loop iteration subscripts the repo dict after the first deleted the
key, and update_db_translations raises KeyError instead of approving both
rows. -/
theorem c5_shared_key_suggestions_raise :
    update_db_translations dbC5 repoC5 5 99 = .error .keyError := rfl

/-- Claim C6 (code_bug): when a parsed translation lacks the group_comments
attribute, entity_from_source evaluates `"\n".join(None)` and raises
TypeError instead of storing an empty groupComment. -/
theorem c6_missing_group_comments_raises :
    entity_from_source "a.po" 5 0 txNoGroup = .error .typeError := rfl

/-- Claim C8 (code_bug): on a database holding the changed resource,
update_resources calls `bulk_update(changed_resources, ("total_strings"))`
with the plain string as the field-name iterable, raising FieldDoesNotExist
from its one-character names, so totalStrings is never persisted. -/
theorem c8_total_strings_bulk_update_raises :
    update_resources dbOneRes [("a.po", some resParsed)] 5 = .error .fieldDoesNotExist := rfl

/-- Claim C3 (code_bug): a fuzzy repo entry matching an existing suggestion
sets the suggestion active without scheduling the rejection of its active
approved sibling: from a state satisfying at-most-one-active,
update_db_translations returns normally with two active rows for
`(10, 20, 0)`. -/
theorem c3_fuzzy_suggestion_breaks_at_most_one_active :
    atMostOneActive dbC3 ∧
    (update_db_translations dbC3 repoC3 5 99).toOption.isSome = true ∧
    countActive (updateOutcome dbC3 repoC3 5 99) 10 20 (some 0) = 2 := by
  refine ⟨?_, rfl, rfl⟩
  intro e l pf
  have h := filter_and_le (fun t => t.active)
    (fun t => decide (t.entity_id = e ∧ t.locale_id = l ∧ t.plural_form = pf))
    dbC3.translations
  have h1 : (dbC3.translations.filter fun t => t.active).length = 1 := rfl
  calc countActive dbC3 e l pf
      ≤ (dbC3.translations.filter fun t => t.active).length := h
    _ = 1 := h1

/-- Claim C7 counterexample: a successful update_db_translations run whose
TRANSLATION_APPROVED ActionLog row does not carry the sync `now` (5) but the
ambient construction time (99): not every ActionLog row produced by
update_db_translations has createdAt equal to the sync-start now. -/
theorem c7_actionlog_created_at_counterexample :
    (update_db_translations dbC7 repoC7 5 99).toOption.isSome = true ∧
    ¬ (∀ a ∈ actsOutcome dbC7 repoC7 5 99, a.created_at = 5) := by
  exact ⟨rfl, by decide⟩

/-- Claim C10 counterexample: a run inserting a new entity (key "new",
order absent) into an already-existing resource raises at the preceding
total_strings bulk_update, so no entity row is persisted at all — in
particular none with order 0. -/
theorem c10_update_phase_never_persists :
    update_resources dbC10 [("b.ftl", some resC10)] 7 = .error .fieldDoesNotExist := rfl

/-- A fold whose step leaves the accumulator untouched returns its initial
accumulator. -/
theorem foldl_const {α β : Type} (f : β → α → β) (l : List α) (acc : β)
    (h : ∀ b, ∀ a ∈ l, f b a = b) : l.foldl f acc = acc := by
  induction l generalizing acc with
  | nil => rfl
  | cons a l ih =>
    rw [List.foldl_cons, h acc a (List.mem_cons_self _ _)]
    exact ih _ (fun b a2 ha2 => h b a2 (List.mem_cons_of_mem _ ha2))

/-- With no removed target paths, the TranslatedResource deletion pass
leaves the database untouched. -/
theorem delete_removed_noop (db : Db) (cos : List TargetCheckout) (refRoot : String)
    (env : SyncEnv) (h : ∀ co ∈ cos, co.removed = []) :
    delete_removed_translated_resources db cos refRoot env = db := by
  unfold delete_removed_translated_resources
  rw [foldl_const]
  · rfl
  · intro b co hco
    by_cases hs : co.is_source
    · simp [hs]
    · simp [hs, h co hco]

/-- With no changed target paths, find_updates_from_repo_to_db returns
None. -/
theorem find_updates_noop (db : Db) (locales : List (String × LocaleRow))
    (cos : List TargetCheckout) (refRoot : String) (env : SyncEnv)
    (h : ∀ co ∈ cos, co.changed = []) :
    find_updates_from_repo_to_db db locales cos refRoot env = .ok none := by
  unfold find_updates_from_repo_to_db collectCheckouts
  rw [foldl_const]
  · rfl
  · intro b co hco
    by_cases hs : co.is_source
    · simp [hs]
    · simp [hs, h co hco]

/-- Claim C1 (confirmed): a second full sync with no repository changes in
between — every checkout delta empty — returns the database unchanged: no
Entity row is added or modified, no Translation row is created, approved or
rejected, and no ActionLog row is written. -/
theorem c1_second_sync_noop (db : Db) (refRoot : String) (now amb : Nat)
    (locale_map locales : List (String × LocaleRow)) (pm : PathsModel)
    (cos : List TargetCheckout) (env : SyncEnv)
    (h : ∀ co ∈ cos, co.changed = [] ∧ co.removed = []) :
    sync_entities_from_repo db refRoot [] [] now locale_map pm = .ok (db, ([], [], [])) ∧
    sync_translations_from_repo db locales cos refRoot env now amb = .ok (db, []) := by
  constructor
  · rfl
  · unfold sync_translations_from_repo
    simp only [delete_removed_noop db cos refRoot env (fun co hco => (h co hco).2),
      find_updates_noop db locales cos refRoot env (fun co hco => (h co hco).1)]

/-- Witness for C1: a concrete run over one target checkout with an empty
delta. -/
theorem c1_second_sync_noop_witness :
    sync_entities_from_repo emptyDb "." [] [] 5 [] pmNone = .ok (emptyDb, ([], [], [])) ∧
    sync_translations_from_repo emptyDb [] [TargetCheckout.mk false "t" [] []] "."
      ⟨fun _ => none⟩ 5 9 = .ok (emptyDb, []) :=
  c1_second_sync_noop emptyDb "." 5 9 [] [] pmNone [TargetCheckout.mk false "t" [] []]
    ⟨fun _ => none⟩ (by simp)

/-- Enumerating a list assigns the orders i, i+1, ... -/
theorem assignOrders_map_order (i : Nat) (l : List ResourceRow) :
    (assignOrders i l).map (·.order) = List.range' i l.length := by
  induction l generalizing i with
  | nil => rfl
  | cons r rs ih => simp [assignOrders, List.range', ih]

/-- Enumerating a list keeps every path. -/
theorem assignOrders_map_path (i : Nat) (l : List ResourceRow) :
    (assignOrders i l).map (·.path) = l.map (·.path) := by
  induction l generalizing i with
  | nil => rfl
  | cons r rs ih => simp [assignOrders, ih]

/-- Enumerating a list keeps its length. -/
theorem assignOrders_length (i : Nat) (l : List ResourceRow) :
    (assignOrders i l).length = l.length := by
  induction l generalizing i with
  | nil => rfl
  | cons r rs ih => simp [assignOrders, ih]

/-- The path order holds pairwise on a list exactly when it holds on the
projected paths. -/
theorem pairwise_pathLe_iff (l : List ResourceRow) :
    List.Pairwise pathLe l ↔ List.Pairwise strLe (l.map (·.path)) := by
  rw [List.pairwise_map]
  rfl

/-- The reordered resource list of add_resources is enumerated 0..N-1 in
path order. -/
theorem ordered_resources_spec (l : List ResourceRow) :
    (assignOrders 0 (List.insertionSort pathLe l)).map (·.order)
      = List.range (assignOrders 0 (List.insertionSort pathLe l)).length ∧
    List.Pairwise pathLe (assignOrders 0 (List.insertionSort pathLe l)) := by
  constructor
  · rw [assignOrders_map_order, assignOrders_length, List.range_eq_range']
  · rw [pairwise_pathLe_iff, assignOrders_map_path, ← pairwise_pathLe_iff]
    haveI : IsTotal ResourceRow pathLe := ⟨fun a b => lexLeB_total a.path.toList b.path.toList⟩
    haveI : IsTrans ResourceRow pathLe := ⟨fun _ _ _ hab hbc => lexLeB_trans _ _ _ hab hbc⟩
    exact List.sorted_insertionSort pathLe l

/-- Claim C9 (confirmed): when add_resources completes having inserted at
least one new resource, the order values over the project's N resources are
exactly 0..N-1, assigned in ascending lexicographic path order. -/
theorem c9_order_totality (db : Db) (locale_map : List (String × LocaleRow)) (pm : PathsModel)
    (updates : List (String × Option SilmeResource)) (changed_paths : List String)
    (now : Nat) (added : List String) (db2 : Db)
    (hok : add_resources db locale_map pm updates changed_paths now = .ok (added, db2))
    (hne : added ≠ []) :
    db2.resources.map (·.order) = List.range db2.resources.length ∧
    List.Pairwise pathLe db2.resources := by
  simp only [add_resources] at hok
  split at hok
  · simp only [Except.ok.injEq, Prod.mk.injEq] at hok
    exact absurd hok.1.symm hne
  · split at hok
    · simp at hok
    · simp only [Except.ok.injEq, Prod.mk.injEq] at hok
      obtain ⟨-, hdb2⟩ := hok
      subst hdb2
      exact ordered_resources_spec _

/-- Witness for C9: a concrete add_resources run inserting two resources. -/
theorem c9_order_totality_witness :
    dbC9out.resources.map (·.order) = List.range dbC9out.resources.length ∧
    List.Pairwise pathLe dbC9out.resources :=
  c9_order_totality emptyDb [] pmNone updC9 [] 5 ["b.po", "a.po"] dbC9out (by rfl) (by simp)

/-- The order column entity_from_source stores is `tx.order or idx`. -/
theorem entity_from_source_order (rp : String) (now idx : Nat) (tx : SilmeEntity) (e : EntityRow)
    (hok : entity_from_source rp now idx tx = .ok e) :
    e.order = (match tx.order with | none => idx | some n => if n = 0 then idx else n) := by
  unfold entity_from_source at hok
  cases hg : tx.group_comments with
  | none => rw [hg] at hok; simp at hok
  | some gcs =>
    cases hr : tx.resource_comments with
    | none => rw [hg, hr] at hok; simp at hok
    | some rcs =>
      rw [hg, hr] at hok
      simp only [Except.ok.injEq] at hok
      subst hok
      rfl

/-- For one changed resource, the next_entities comprehension constructs
every entity with index 0, so a tx whose order is absent, nil or 0 yields
order 0. -/
theorem nextEntitiesRes_order_zero (rp : String) (now : Nat) (txs : List SilmeEntity)
    (acc out : List ((String × String) × EntityRow))
    (hord : ∀ tx ∈ txs, tx.order = none ∨ tx.order = some 0)
    (hacc : ∀ ke ∈ acc, ke.2.order = 0)
    (hok : nextEntitiesRes rp now acc txs = .ok out) :
    ∀ ke ∈ out, ke.2.order = 0 := by
  induction txs generalizing acc with
  | nil =>
    simp only [nextEntitiesRes, Except.ok.injEq] at hok
    subst hok
    exact hacc
  | cons tx rest ih =>
    simp only [nextEntitiesRes] at hok
    cases hefs : entity_from_source rp now 0 tx with
    | error e => rw [hefs] at hok; simp at hok
    | ok ent =>
      rw [hefs] at hok
      have hent : ent.order = 0 := by
        have := entity_from_source_order rp now 0 tx ent hefs
        rcases hord tx (List.mem_cons_self _ _) with h0 | h0 <;> rw [h0] at this <;>
          simpa using this
      refine ih _ (fun t ht => hord t (List.mem_cons_of_mem _ ht)) ?_ hok
      intro ke hke
      obtain ⟨kk, vv⟩ := ke
      rcases mem_aset acc kk (rp, canonKey ent.key ent.string) vv ent hke with h | h
      · exact hacc _ h
      · simp [h.2, hent]

/-- Claim C10 (corrected): update_resources builds its next_entities map by
calling entity_from_source with index 0 for every parsed translation, and
entity_from_source stores `order = tx.order or idx`; hence every Entity
object constructed for insertion into an already-existing resource whose
tx.order is absent, nil or 0 carries order 0, regardless of its position in
the parsed file. (No such entity is persisted, update_resources raising at
the preceding total_strings bulk_update.) -/
theorem c10_constructed_entities_order_zero (updates : List (String × Option SilmeResource))
    (now : Nat) (crs : List ResourceRow) (acc out : List ((String × String) × EntityRow))
    (hord : ∀ p r, alookup updates p = some (some r) →
      ∀ tx ∈ r.translations, tx.order = none ∨ tx.order = some 0)
    (hacc : ∀ ke ∈ acc, ke.2.order = 0)
    (hok : nextEntities updates now crs acc = .ok out) :
    ∀ ke ∈ out, ke.2.order = 0 := by
  induction crs generalizing acc with
  | nil =>
    simp only [nextEntities, Except.ok.injEq] at hok
    subst hok
    exact hacc
  | cons cr rest ih =>
    simp only [nextEntities] at hok
    cases hlk : alookup updates cr.path with
    | none =>
      rw [hlk] at hok
      cases hres : nextEntitiesRes cr.path now acc [] with
      | error e => rw [hres] at hok; simp at hok
      | ok acc2 =>
        rw [hres] at hok
        simp only [nextEntitiesRes, Except.ok.injEq] at hres
        exact ih acc2 (by rw [← hres]; exact hacc) hok
    | some o =>
      cases o with
      | none =>
        rw [hlk] at hok
        cases hres : nextEntitiesRes cr.path now acc [] with
        | error e => rw [hres] at hok; simp at hok
        | ok acc2 =>
          rw [hres] at hok
          simp only [nextEntitiesRes, Except.ok.injEq] at hres
          exact ih acc2 (by rw [← hres]; exact hacc) hok
      | some res =>
        rw [hlk] at hok
        cases hres : nextEntitiesRes cr.path now acc res.translations with
        | error e => rw [hres] at hok; simp at hok
        | ok acc2 =>
          rw [hres] at hok
          exact ih acc2
            (nextEntitiesRes_order_zero cr.path now res.translations acc acc2
              (hord cr.path res hlk) hacc hres) hok

/-- Witness for C10: the concrete comprehension output has order 0 on every
constructed entity. -/
theorem c10_constructed_entities_order_zero_witness :
    outC10w.all (fun ke => decide (ke.2.order = 0)) = true := by
  have h := c10_constructed_entities_order_zero updC10w 5 crsC10w [] outC10w
    (by
      intro p r h tx htx
      by_cases hp : p = "c.po"
      · subst hp
        simp only [updC10w, alookup, if_true, Option.some.injEq, reduceIte] at h
        subst h
        simp only [List.mem_cons, List.not_mem_nil, or_false] at htx
        rcases htx with h | h
        · left
          rw [h]
          rfl
        · right
          rw [h]
      · simp [updC10w, alookup, hp] at h)
    (by intro ke h2; cases h2)
    (by rfl)
  exact List.all_eq_true.mpr (fun ke hke => by simpa using h ke hke)

/-- Deleting a key keeps the key set within the original. -/
theorem keys_adel_sub {κ ν : Type} [DecidableEq κ] (m : List (κ × ν)) (k0 k : κ)
    (h : k ∈ (adel m k0).map (·.1)) : k ∈ m.map (·.1) := by
  rcases List.mem_map.mp h with ⟨kv, hkv, hk⟩
  exact List.mem_map.mpr ⟨kv, mem_adel m k0 kv hkv, hk⟩

/-- Invariants of the suggestion-approval loop: its ActionLog rows are
unrejections or approvals carrying the ambient construction time, every
updated row keeps the id, entity and locale of a processed suggestion, every
rejection entry carries the entity and locale of a processed suggestion, and
the remaining repo keys are among the original ones. -/
theorem approveSuggestions_spec (now amb : Nat) (repo : Repo) (l : List TranslationRow)
    (out : ApproveOut) (hok : approveSuggestions now amb repo l = .ok out) :
    (∀ a ∈ out.acts, a.action_type ≠ .created ∧ a.created_at = amb) ∧
    (∀ u ∈ out.updated, ∃ t ∈ l, u.id = t.id ∧ u.entity_id = t.entity_id ∧
      u.locale_id = t.locale_id) ∧
    (∀ en ∈ out.entries, ∃ t ∈ l, en.entity_id = t.entity_id ∧ en.locale_id = t.locale_id) ∧
    (∀ k ∈ out.repo.map (·.1), k ∈ repo.map (·.1)) := by
  induction l generalizing repo out with
  | nil =>
    simp only [approveSuggestions, Except.ok.injEq] at hok
    subst hok
    refine ⟨by simp, by simp, by simp, by simp⟩
  | cons t rest ih =>
    cases hlk : alookup repo (t.entity_id, t.locale_id) with
    | none => simp [approveSuggestions, hlk] at hok
    | some v =>
      obtain ⟨strs, fz⟩ := v
      cases hrec : approveSuggestions now amb (adel repo (t.entity_id, t.locale_id)) rest with
      | error e => simp [approveSuggestions, hlk, hrec] at hok
      | ok out2 =>
        simp only [approveSuggestions, hlk, hrec, Except.ok.injEq] at hok
        subst hok
        obtain ⟨ha2, hu2, he2, hk2⟩ := ih _ _ hrec
        refine ⟨?_, ?_, ?_, ?_⟩
        · intro a ha
          simp only [List.mem_append] at ha
          rcases ha with ha | ha
          · by_cases hfz : fz <;> by_cases hrj : t.rejected <;>
              simp only [hfz, hrj, if_true, if_false, Bool.false_eq_true, reduceIte,
                List.mem_append, List.mem_singleton, List.not_mem_nil, or_false,
                false_or, List.mem_cons] at ha <;>
              first
                | exact ha.elim
                | (rcases ha with ha | ha <;> subst ha <;> exact ⟨by simp, rfl⟩)
                | (subst ha; exact ⟨by simp, rfl⟩)
          · exact ha2 a ha
        · intro u hu
          rcases List.mem_cons.mp hu with hu | hu
          · refine ⟨t, List.mem_cons_self _ _, ?_⟩
            subst hu
            by_cases hfz : fz <;> by_cases hrj : t.rejected <;> simp [hfz, hrj]
          · rcases hu2 u hu with ⟨t0, ht0, hh⟩
            exact ⟨t0, List.mem_cons_of_mem _ ht0, hh⟩
        · intro en hen
          simp only [List.mem_append] at hen
          rcases hen with hen | hen
          · refine ⟨t, List.mem_cons_self _ _, ?_⟩
            by_cases hfz : fz
            · simp [hfz] at hen
            · simp [hfz] at hen
              exact ⟨by simp [hen], by simp [hen]⟩
          · rcases he2 en hen with ⟨t0, ht0, hh⟩
            exact ⟨t0, List.mem_cons_of_mem _ ht0, hh⟩
        · intro k hk
          exact keys_adel_sub repo _ k (hk2 k hk)

/-- Every Translation row the create step builds for one key carries its
entity, locale and the sync now as its date; every ActionLog row it builds is
a TRANSLATION_CREATED with createdAt now (the one explicit created_at in the
source). -/
theorem createForKey_spec (now eid lid : Nat) (fz : Bool) (strs : Strings) (n : Nat) :
    (∀ t ∈ (createForKey now eid lid fz strs n).1,
      t.entity_id = eid ∧ t.locale_id = lid ∧ t.date = now) ∧
    (∀ a ∈ (createForKey now eid lid fz strs n).2.1,
      a.action_type = .created ∧ a.created_at = now) := by
  induction strs generalizing n with
  | nil => exact ⟨by simp [createForKey], by simp [createForKey]⟩
  | cons ps rest ih =>
    obtain ⟨pf, s⟩ := ps
    constructor
    · intro t ht
      rcases List.mem_cons.mp ht with h | h
      · subst h
        exact ⟨rfl, rfl, rfl⟩
      · exact (ih (n + 1)).1 t h
    · intro a ha
      rcases List.mem_cons.mp ha with h | h
      · subst h
        exact ⟨rfl, rfl⟩
      · exact (ih (n + 1)).2 a h

/-- Every row the create step builds keys into the remaining repo map and is
dated now; every action it builds is a TRANSLATION_CREATED with createdAt
now. -/
theorem createRows_spec (now : Nat) (repo : Repo) (n : Nat) :
    (∀ t ∈ (createRows now repo n).1,
      (t.entity_id, t.locale_id) ∈ repo.map (·.1) ∧ t.date = now) ∧
    (∀ a ∈ (createRows now repo n).2.1,
      a.action_type = .created ∧ a.created_at = now) := by
  induction repo generalizing n with
  | nil => exact ⟨by simp [createRows], by simp [createRows]⟩
  | cons kv rest ih =>
    obtain ⟨⟨eid, lid⟩, strs, fz⟩ := kv
    constructor
    · intro t ht
      simp only [createRows, List.mem_append] at ht
      rcases ht with h | h
      · obtain ⟨h1, h2, h3⟩ := (createForKey_spec now eid lid fz strs n).1 t h
        refine ⟨?_, h3⟩
        simp [h1, h2]
      · obtain ⟨h1, h2⟩ := (ih _).1 t h
        exact ⟨List.mem_cons_of_mem _ h1, h2⟩
    · intro a ha
      simp only [createRows, List.mem_append] at ha
      rcases ha with h | h
      · exact (createForKey_spec now eid lid fz strs n).2 a h
      · exact (ih _).2 a h

/-- Timestamp columns of the rows written back by the suggestion-approval
loop: each updated row keeps the date of its source suggestion, and each of
its approvedDate (line 243), rejectedDate (untouched here) and
unrejectedDate (line 229) columns is either the suggestion value unchanged
or the sync-start now. -/
theorem approveSuggestions_stamps (now amb : Nat) (repo : Repo) (l : List TranslationRow)
    (out : ApproveOut) (hok : approveSuggestions now amb repo l = .ok out) :
    ∀ u ∈ out.updated, ∃ t ∈ l, u.id = t.id ∧ u.date = t.date ∧
      stampWrite now t.approved_date u.approved_date ∧
      stampWrite now t.rejected_date u.rejected_date ∧
      stampWrite now t.unrejected_date u.unrejected_date := by
  induction l generalizing repo out with
  | nil =>
    simp only [approveSuggestions, Except.ok.injEq] at hok
    subst hok
    simp
  | cons t rest ih =>
    cases hlk : alookup repo (t.entity_id, t.locale_id) with
    | none => simp [approveSuggestions, hlk] at hok
    | some v =>
      obtain ⟨strs, fz⟩ := v
      cases hrec : approveSuggestions now amb (adel repo (t.entity_id, t.locale_id)) rest with
      | error e => simp [approveSuggestions, hlk, hrec] at hok
      | ok out2 =>
        simp only [approveSuggestions, hlk, hrec, Except.ok.injEq] at hok
        subst hok
        intro u hu
        rcases List.mem_cons.mp hu with hu | hu
        · refine ⟨t, List.mem_cons_self _ _, ?_⟩
          subst hu
          by_cases hfz : fz <;> by_cases hrj : t.rejected <;>
            simp [hfz, hrj, stampWrite]
        · rcases ih _ _ hrec u hu with ⟨t0, ht0, hh⟩
          exact ⟨t0, List.mem_cons_of_mem _ ht0, hh⟩

/-- Timestamp columns of the rows built by the inner create loop: the
approvedDate is NULL (fuzzy) or now (line 279), and the rejectedDate and
unrejectedDate take the NULL model default. -/
theorem createForKey_stamps (now eid lid : Nat) (fz : Bool) (strs : Strings) (n : Nat) :
    ∀ t ∈ (createForKey now eid lid fz strs n).1,
      (t.approved_date = none ∨ t.approved_date = some now) ∧
      t.rejected_date = none ∧ t.unrejected_date = none := by
  induction strs generalizing n with
  | nil => simp [createForKey]
  | cons ps rest ih =>
    obtain ⟨pf, s⟩ := ps
    intro t ht
    rcases List.mem_cons.mp ht with h | h
    · subst h
      refine ⟨?_, rfl, rfl⟩
      by_cases hfz : fz <;> simp [newTranslation, hfz]
    · exact ih (n + 1) t h

/-- Timestamp columns of the rows built by the create step: the approvedDate
is NULL or now, and the rejectedDate and unrejectedDate are NULL. -/
theorem createRows_stamps (now : Nat) (repo : Repo) (n : Nat) :
    ∀ t ∈ (createRows now repo n).1,
      (t.approved_date = none ∨ t.approved_date = some now) ∧
      t.rejected_date = none ∧ t.unrejected_date = none := by
  induction repo generalizing n with
  | nil => simp [createRows]
  | cons kv rest ih =>
    obtain ⟨⟨eid, lid⟩, strs, fz⟩ := kv
    intro t ht
    simp only [createRows, List.mem_append] at ht
    rcases ht with h | h
    · exact createForKey_stamps now eid lid fz strs n t h
    · exact ih _ t h

/-- Claim C7 (corrected): in update_db_translations every Translation
timestamp column written takes the sync-start now, and the
TRANSLATION_CREATED ActionLog rows carry createdAt = now; but the
TRANSLATION_APPROVED, TRANSLATION_UNREJECTED and TRANSLATION_REJECTED
ActionLog rows, built without an explicit created_at, carry the
model-default construction time, which need not equal now. Concretely:
every row of the resulting translations table either shares its id with a
pre-state row whose date it keeps and whose approvedDate, rejectedDate and
unrejectedDate it leaves unchanged, clears, or sets to now (stampWrite), or
is a fresh row dated now whose approvedDate, rejectedDate and
unrejectedDate are each NULL or now - so no write ever puts a time other
than now into any of the four columns. -/
theorem c7_amended_timestamps (db : Db) (repo : Repo) (now amb : Nat)
    (db2 : Db) (acts : List ActionRow)
    (hok : update_db_translations db repo now amb = .ok (db2, acts)) :
    (∀ a ∈ acts, (a.action_type = .created → a.created_at = now) ∧
      (a.action_type ≠ .created → a.created_at = amb)) ∧
    (∀ t ∈ db2.translations,
      (∃ t0 ∈ db.translations, t0.id = t.id ∧ t.date = t0.date ∧
        stampWrite now t0.approved_date t.approved_date ∧
        stampWrite now t0.rejected_date t.rejected_date ∧
        stampWrite now t0.unrejected_date t.unrejected_date) ∨
      (t.date = now ∧ (t.approved_date = none ∨ t.approved_date = some now) ∧
        (t.rejected_date = none ∨ t.rejected_date = some now) ∧
        (t.unrejected_date = none ∨ t.unrejected_date = some now))) := by
  simp only [update_db_translations] at hok
  split at hok
  · simp at hok
  · rename_i out heq
    split at hok
    · simp at hok
    · simp only [Except.ok.injEq, Prod.mk.injEq] at hok
      obtain ⟨hdb2, hacts⟩ := hok
      subst hdb2
      subst hacts
      obtain ⟨hacts1, -, -, -⟩ := approveSuggestions_spec now amb repo _ out heq
      constructor
      · intro a ha
        simp only [List.mem_append] at ha
        rcases ha with (ha | ha) | ha
        · obtain ⟨h1, h2⟩ := hacts1 a ha
          exact ⟨fun hc => absurd hc h1, fun _ => h2⟩
        · obtain ⟨h1, h2⟩ := (createRows_spec now out.repo db.next_translation_id).2 a ha
          exact ⟨fun _ => h2, fun hc => absurd h1 hc⟩
        · split at ha
          · simp at ha
          · rcases List.mem_map.mp ha with ⟨t, -, hat⟩
            subst hat
            exact ⟨fun hc => by simp at hc, fun _ => rfl⟩
      · intro t ht
        have hstamps := approveSuggestions_stamps now amb repo _ out heq
        have htrans : ∀ t2, t2 ∈ (db.translations.map fun t =>
              match out.updated.find? (fun u => u.id == t.id) with
              | some u => u
              | none => t) ++ (createRows now out.repo db.next_translation_id).1 →
            (∃ t0 ∈ db.translations, t0.id = t2.id ∧ t2.date = t0.date ∧
              stampWrite now t0.approved_date t2.approved_date ∧
              stampWrite now t0.rejected_date t2.rejected_date ∧
              stampWrite now t0.unrejected_date t2.unrejected_date) ∨
            (t2.date = now ∧ (t2.approved_date = none ∨ t2.approved_date = some now) ∧
              (t2.rejected_date = none ∨ t2.rejected_date = some now) ∧
              (t2.unrejected_date = none ∨ t2.unrejected_date = some now)) := by
          intro t2 ht2
          rcases List.mem_append.mp ht2 with h | h
          · rcases List.mem_map.mp h with ⟨t0, ht0, hft⟩
            left
            cases hf : List.find? (fun u => u.id == t0.id) out.updated with
            | none =>
              simp only [hf] at hft
              subst hft
              exact ⟨t0, ht0, rfl, rfl, Or.inl rfl, Or.inl rfl, Or.inl rfl⟩
            | some u =>
              simp only [hf] at hft
              subst hft
              rcases hstamps u (List.mem_of_find?_eq_some hf) with
                ⟨s, hs, hid, hdate, hap, hrj2, hunrej⟩
              exact ⟨s, (List.mem_filter.mp hs).1, hid.symm, hdate, hap, hrj2, hunrej⟩
          · right
            have h1 := ((createRows_spec now out.repo db.next_translation_id).1 t2 h).2
            have h2 := createRows_stamps now out.repo db.next_translation_id t2 h
            exact ⟨h1, h2.1, Or.inl h2.2.1, Or.inl h2.2.2⟩
        split at ht
        · exact htrans t ht
        · rcases List.mem_map.mp ht with ⟨t2, ht2, hgt⟩
          split at hgt
          · rcases htrans t2 ht2 with ⟨t0, ht0, hid, hdate, hap, hrj2, hunrej⟩ |
              ⟨hd, hap, hrj2, hunrej⟩
            · refine Or.inl ⟨t0, ht0, ?_, ?_, ?_, ?_, ?_⟩
              · rw [← hgt]
                exact hid
              · rw [← hgt]
                exact hdate
              · rw [← hgt]
                exact Or.inr (Or.inl rfl)
              · rw [← hgt]
                exact Or.inr (Or.inr rfl)
              · rw [← hgt]
                exact hunrej
            · refine Or.inr ⟨?_, ?_, ?_, ?_⟩
              · rw [← hgt]
                exact hd
              · rw [← hgt]
                exact Or.inl rfl
              · rw [← hgt]
                exact Or.inr rfl
              · rw [← hgt]
                exact hunrej
          · subst hgt
            exact htrans t2 ht2

/-- Witness for C7: the amended timestamp property at the concrete
one-suggestion run. -/
theorem c7_amended_timestamps_witness :
    (∀ a ∈ actsOutcome dbC7 repoC7 5 99,
      (a.action_type = .created → a.created_at = 5) ∧
      (a.action_type ≠ .created → a.created_at = 99)) ∧
    (∀ t ∈ (updateOutcome dbC7 repoC7 5 99).translations,
      (∃ t0 ∈ dbC7.translations, t0.id = t.id ∧ t.date = t0.date ∧
        stampWrite 5 t0.approved_date t.approved_date ∧
        stampWrite 5 t0.rejected_date t.rejected_date ∧
        stampWrite 5 t0.unrejected_date t.unrejected_date) ∨
      (t.date = 5 ∧ (t.approved_date = none ∨ t.approved_date = some 5) ∧
        (t.rejected_date = none ∨ t.rejected_date = some 5) ∧
        (t.unrejected_date = none ∨ t.unrejected_date = some 5))) :=
  c7_amended_timestamps dbC7 repoC7 5 99 (updateOutcome dbC7 repoC7 5 99)
    (actsOutcome dbC7 repoC7 5 99) (by rfl)

/-- A row matching the suggestion query carries a key of the repo map. -/
theorem txMatchesRepo_key (repo : Repo) (t : TranslationRow)
    (h : txMatchesRepo repo t = true) : (t.entity_id, t.locale_id) ∈ repo.map (·.1) := by
  simp only [txMatchesRepo, List.any_eq_true, decide_eq_true_eq] at h
  obtain ⟨kv, hkv, ps, hps, h1, h2, -⟩ := h
  refine List.mem_map.mpr ⟨kv, hkv, ?_⟩
  simp [Prod.ext_iff, h1, h2]

/-- A row matching the rejection predicate shares entity and locale with
some rejection entry. -/
theorem matchesReject_key (entries : List RejectEntry) (t : TranslationRow)
    (h : matchesReject entries t = true) :
    ∃ en ∈ entries, t.entity_id = en.entity_id ∧ t.locale_id = en.locale_id := by
  simp only [matchesReject, List.any_eq_true, decide_eq_true_eq] at h
  obtain ⟨en, hen, h1, h2, -⟩ := h
  exact ⟨en, hen, h1, h2⟩

/-- Mapping with a function that fixes the rows a filter keeps, and neither
adds nor removes kept rows, commutes away under the filter. -/
theorem filter_map_eq {α : Type} (P : α → Bool) (f : α → α) (l : List α)
    (h1 : ∀ a ∈ l, P a = true → f a = a) (h2 : ∀ a ∈ l, P (f a) = P a) :
    (l.map f).filter P = l.filter P := by
  induction l with
  | nil => rfl
  | cons a l ih =>
    have ih2 := ih (fun x hx => h1 x (List.mem_cons_of_mem _ hx))
      (fun x hx => h2 x (List.mem_cons_of_mem _ hx))
    by_cases hp : P a = true
    · have hfa := h1 a (List.mem_cons_self _ _) hp
      simp only [List.map_cons, List.filter_cons, h2 a (List.mem_cons_self _ _), hp, hfa,
        if_true, ih2]
    · have hp2 : P a = false := by simpa using hp
      simp only [List.map_cons, List.filter_cons, h2 a (List.mem_cons_self _ _), hp2,
        Bool.false_eq_true, if_false, ih2]

/-- Two rows of a primary-keyed table with the same id are the same row. -/
theorem eq_of_mem_nodup_ids {l : List TranslationRow}
    (h : (l.map (·.id)).Nodup) (t s : TranslationRow)
    (ht : t ∈ l) (hs : s ∈ l) (hid : t.id = s.id) : t = s :=
  List.inj_on_of_nodup_map h ht hs hid

/-- update_db_translations neither creates nor modifies any Translation row
of an `(entity, locale)` pair that is not a key of its repo map: every write
(the suggestion bulk update, the create step, the rejection update) touches
only rows keyed into the map. -/
theorem update_db_preserves_unkeyed (db : Db) (repo : Repo) (now amb : Nat)
    (db2 : Db) (acts : List ActionRow) (E L : Nat)
    (hok : update_db_translations db repo now amb = .ok (db2, acts))
    (hids : (db.translations.map (·.id)).Nodup)
    (hEL : (E, L) ∉ repo.map (·.1)) :
    rowsAt db2 E L = rowsAt db E L := by
  simp only [update_db_translations] at hok
  split at hok
  · simp at hok
  · rename_i out heq
    split at hok
    · simp at hok
    · simp only [Except.ok.injEq, Prod.mk.injEq] at hok
      obtain ⟨hdb2, -⟩ := hok
      subst hdb2
      obtain ⟨-, hupd, hent, hkeys⟩ := approveSuggestions_spec now amb repo _ out heq
      have hsugg : ∀ t ∈ db.translations.filter
          (fun t => txMatchesRepo repo t && !t.approved && !t.pretranslated),
          t ∈ db.translations ∧ (t.entity_id, t.locale_id) ∈ repo.map (·.1) := by
        intro t ht
        obtain ⟨hmem, hcond⟩ := List.mem_filter.mp ht
        simp only [Bool.and_eq_true] at hcond
        exact ⟨hmem, txMatchesRepo_key repo t hcond.1.1⟩
      -- every updated row carries a key of the repo map and the id of a db row
      have hupd2 : ∀ u ∈ out.updated,
          (u.entity_id, u.locale_id) ∈ repo.map (·.1) ∧
          ∃ s ∈ db.translations, u.id = s.id ∧ u.entity_id = s.entity_id ∧
            u.locale_id = s.locale_id ∧
            (s.entity_id, s.locale_id) ∈ repo.map (·.1) := by
        intro u hu
        obtain ⟨s, hsl, hsid, hse, hsloc⟩ := hupd u hu
        obtain ⟨hsdb, hskey⟩ := hsugg s hsl
        refine ⟨?_, s, hsdb, hsid, hse, hsloc, hskey⟩
        rw [hse, hsloc]
        exact hskey
      -- the new rows carry keys of the repo map
      have hnew : ∀ t ∈ (createRows now out.repo db.next_translation_id).1,
          (t.entity_id, t.locale_id) ∈ repo.map (·.1) := by
        intro t htm
        exact hkeys _ ((createRows_spec now out.repo db.next_translation_id).1 t htm).1
      -- every rejection entry carries a key of the repo map
      have hentries : ∀ en ∈ out.entries ++
          ((createRows now out.repo db.next_translation_id).1.map fun t =>
            RejectEntry.mk t.entity_id t.locale_id t.plural_form t.id),
          (en.entity_id, en.locale_id) ∈ repo.map (·.1) := by
        intro en hen
        rcases List.mem_append.mp hen with h | h
        · obtain ⟨s, hsl, h1, h2⟩ := hent en h
          obtain ⟨-, hskey⟩ := hsugg s hsl
          rw [h1, h2]
          exact hskey
        · rcases List.mem_map.mp h with ⟨t, htm, hmk⟩
          rw [← hmk]
          exact hnew t htm
      -- the P predicate of rowsAt
      set P : TranslationRow → Bool :=
        fun t => decide (t.entity_id = E ∧ t.locale_id = L) with hP
      have hPkey : ∀ t : TranslationRow, P t = true →
          (t.entity_id, t.locale_id) ∉ repo.map (·.1) := by
        intro t hpt
        rw [hP] at hpt
        simp only [decide_eq_true_eq] at hpt
        rw [hpt.1, hpt.2]
        exact hEL
      -- the suggestion bulk update leaves rows at (E, L) untouched
      have hstep1 : ((db.translations.map fun t =>
          match out.updated.find? (fun u => u.id == t.id) with
          | some u => u
          | none => t)).filter P = db.translations.filter P := by
        apply filter_map_eq
        · intro t htm hpt
          cases hf : out.updated.find? (fun u => u.id == t.id) with
          | none => simp [hf]
          | some u =>
            exfalso
            have humem := List.mem_of_find?_eq_some hf
            have hidu : u.id = t.id := by simpa using List.find?_some hf
            obtain ⟨hukey, s, hsdb, hsid, hse, hsloc, hskey⟩ := hupd2 u humem
            have hts : t = s := eq_of_mem_nodup_ids hids t s htm hsdb (by rw [← hidu, hsid])
            apply hPkey t hpt
            rw [hts]
            exact hskey
        · intro t htm
          cases hf : out.updated.find? (fun u => u.id == t.id) with
          | none => simp [hf]
          | some u =>
            simp only [hf]
            have humem := List.mem_of_find?_eq_some hf
            have hidu : u.id = t.id := by simpa using List.find?_some hf
            obtain ⟨-, s, hsdb, hsid, hse, hsloc, -⟩ := hupd2 u humem
            have hts : t = s := eq_of_mem_nodup_ids hids t s htm hsdb (by rw [← hidu, hsid])
            simp only [hP]
            rw [hse, hsloc, hts]
      -- the created rows do not live at (E, L)
      have hstep2 : ∀ t ∈ (createRows now out.repo db.next_translation_id).1,
          P t = false := by
        intro t htm
        by_contra hc
        have : P t = true := by simpa using hc
        exact hPkey t this (hnew t htm)
      -- the rejection update leaves rows at (E, L) untouched
      have hnil2 : List.filter P (createRows now out.repo db.next_translation_id).1 = [] := by
        apply List.filter_eq_nil_iff.mpr
        intro t htm
        simp [hstep2 t htm]
      show List.filter P _ = List.filter P db.translations
      split
      · rw [List.filter_append, hstep1, hnil2, List.append_nil]
      · refine Eq.trans (filter_map_eq P _ _ ?_ ?_) ?_
        · intro t htm hpt
          have hcond : (!t.rejected && matchesReject (out.entries ++
              ((createRows now out.repo db.next_translation_id).1.map fun t =>
                RejectEntry.mk t.entity_id t.locale_id t.plural_form t.id)) t) = false := by
            by_contra hc
            have hc2 : (!t.rejected && matchesReject (out.entries ++
                ((createRows now out.repo db.next_translation_id).1.map fun t =>
                  RejectEntry.mk t.entity_id t.locale_id t.plural_form t.id)) t) = true := by
              simpa using hc
            obtain ⟨en, hen, h1, h2⟩ := matchesReject_key _ t
              ((Bool.and_eq_true _ _ ▸ hc2).2)
            apply hPkey t hpt
            rw [h1, h2]
            exact hentries en hen
          simp [hcond]
        · intro t htm
          by_cases hc : (!t.rejected && matchesReject (out.entries ++
              ((createRows now out.repo db.next_translation_id).1.map fun t =>
                RejectEntry.mk t.entity_id t.locale_id t.plural_form t.id)) t) = true
          · simp only [hc, if_true]
            rfl
          · have hc2 : (!t.rejected && matchesReject (out.entries ++
                ((createRows now out.repo db.next_translation_id).1.map fun t =>
                  RejectEntry.mk t.entity_id t.locale_id t.plural_form t.id)) t) = false := by
              simpa using hc
            simp only [hc2, Bool.false_eq_true, if_false]
        · rw [List.filter_append, hstep1, hnil2, List.append_nil]

/-- A key present in an association list looks up to something. -/
theorem alookup_ne_none_of_mem {κ ν : Type} [DecidableEq κ] (m : List (κ × ν)) (k : κ) (v : ν)
    (h : (k, v) ∈ m) : alookup m k ≠ none := by
  induction m with
  | nil => simp at h
  | cons kv m ih =>
    obtain ⟨a, b⟩ := kv
    by_cases hk : k = a
    · simp [alookup, hk]
    · simp only [alookup, hk, if_neg hk]
      rcases List.mem_cons.mp h with h | h
      · exact absurd (congrArg Prod.fst h) hk
      · exact ih h

/-- The keys after an insert are the old keys or the inserted one. -/
theorem keys_aset {κ ν : Type} [DecidableEq κ] (m : List (κ × ν)) (k k0 : κ) (v0 : ν)
    (h : k ∈ (aset m k0 v0).map (·.1)) : k ∈ m.map (·.1) ∨ k = k0 := by
  rcases List.mem_map.mp h with ⟨kv, hkv, hk⟩
  obtain ⟨kk, vv⟩ := kv
  rcases mem_aset m kk k0 vv v0 hkv with h2 | h2
  · exact Or.inl (List.mem_map.mpr ⟨(kk, vv), h2, hk⟩)
  · subst hk
    exact Or.inr h2.1

/-- find? by id over a primary-keyed table returns the member row. -/
theorem find?_id_of_nodup (l : List EntityRow) (ent : EntityRow)
    (hids : (l.map (·.id)).Nodup) (hm : ent ∈ l) :
    l.find? (fun e => e.id == ent.id) = some ent := by
  induction l with
  | nil => simp at hm
  | cons e es ih =>
    have hids2 : (∀ x ∈ es, ¬x.id = e.id) ∧ (es.map (·.id)).Nodup := by simpa using hids
    rcases List.mem_cons.mp hm with h | h
    · subst h
      simp [List.find?]
    · have hne : e.id ≠ ent.id := fun hcontra => hids2.1 ent h hcontra.symm
      simp only [List.find?, beq_eq_false_iff_ne.mpr hne]
      exact ih hids2.2 h

/-- The entity foreign-key dereference finds a member entity by its id. -/
theorem entityOf_of_nodup (db : Db) (ent : EntityRow)
    (hids : (db.entities.map (·.id)).Nodup) (hm : ent ∈ db.entities) :
    entityOf db ent.id = some ent :=
  find?_id_of_nodup db.entities ent hids hm

/-- The database-wins pass only deletes: an absent key stays absent. -/
theorem celStrip_none_preserved (db : Db) (cels : List CelRow) (tm : TransMap)
    (k : String × String × Nat) (h : alookup tm k = none) :
    alookup (celStrip db tm cels) k = none := by
  induction cels generalizing tm with
  | nil => exact h
  | cons c rest ih =>
    simp only [celStrip]
    cases entityOf db c.entity_id with
    | none => exact ih tm h
    | some e =>
      apply ih
      by_cases hk : k = (e.resource_path, canonKey e.key e.string, c.locale_id)
      · rw [hk]
        exact alookup_adel_self tm _
      · rw [alookup_adel_ne tm k _ hk]
        exact h

/-- After the database-wins pass, the translation-map key of any
ChangedEntityLocale row whose entity resolves is gone. -/
theorem celStrip_removes (db : Db) (cels : List CelRow) (tm : TransMap)
    (c : CelRow) (hc : c ∈ cels) (ent : EntityRow)
    (hent : entityOf db c.entity_id = some ent) :
    alookup (celStrip db tm cels)
      (ent.resource_path, canonKey ent.key ent.string, c.locale_id) = none := by
  induction cels generalizing tm with
  | nil => simp at hc
  | cons c2 rest ih =>
    rcases List.mem_cons.mp hc with h | h
    · subst h
      simp only [celStrip, hent]
      exact celStrip_none_preserved db rest _ _ (alookup_adel_self tm _)
    · simp only [celStrip]
      cases entityOf db c2.entity_id with
      | none => exact ih _ h
      | some e2 => exact ih _ h

/-- Every entry of the entity-resolution dict comes from a matched entity,
keyed by its own resource path and canonical key. -/
theorem entsDict_source (ents : List EntityRow) (acc : List ((String × String) × Nat))
    (pk : String × String) (eid : Nat)
    (h : (pk, eid) ∈ ents.foldl
      (fun m e => aset m (e.resource_path, canonKey e.key e.string) e.id) acc) :
    (pk, eid) ∈ acc ∨
      ∃ e ∈ ents, pk = (e.resource_path, canonKey e.key e.string) ∧ eid = e.id := by
  induction ents generalizing acc with
  | nil => exact Or.inl h
  | cons e rest ih =>
    rcases ih _ h with h2 | h2
    · rcases mem_aset acc pk _ eid e.id h2 with h3 | h3
      · exact Or.inl h3
      · exact Or.inr ⟨e, List.mem_cons_self _ _, h3⟩
    · obtain ⟨e2, he2, hh⟩ := h2
      exact Or.inr ⟨e2, List.mem_cons_of_mem _ he2, hh⟩

/-- Every key of the emitted repo map arises from a surviving
translation-map entry whose canonical key resolves to that entity id. -/
theorem resolve_fold_keys (ents : List ((String × String) × Nat)) (tm : TransMap)
    (acc : Repo) (eid lid : Nat)
    (h : (eid, lid) ∈ (tm.foldl (fun m kv =>
      match alookup ents (kv.1.1, kv.1.2.1) with
      | some e => aset m (e, kv.1.2.2) kv.2
      | none => m) acc).map (·.1)) :
    (eid, lid) ∈ acc.map (·.1) ∨
      ∃ kv ∈ tm, kv.1.2.2 = lid ∧ alookup ents (kv.1.1, kv.1.2.1) = some eid := by
  induction tm generalizing acc with
  | nil => exact Or.inl h
  | cons kv rest ih =>
    rw [List.foldl_cons] at h
    rcases ih _ h with h2 | h2
    · cases hlk : alookup ents (kv.1.1, kv.1.2.1) with
      | none =>
        rw [hlk] at h2
        exact Or.inl h2
      | some e =>
        rw [hlk] at h2
        rcases keys_aset acc (eid, lid) (e, kv.1.2.2) kv.2 h2 with h3 | h3
        · exact Or.inl h3
        · rw [Prod.mk.injEq] at h3
          refine Or.inr ⟨kv, List.mem_cons_self _ _, h3.2.symm, ?_⟩
          rw [hlk, h3.1]
    · obtain ⟨kv2, hkv2, hh⟩ := h2
      exact Or.inr ⟨kv2, List.mem_cons_of_mem _ hkv2, hh⟩

/-- Every key of the resolveEntities output names an existing entity whose
canonical translation-map key is still present. -/
theorem resolveEntities_keys (db : Db) (resources : List (String × ResourceRow))
    (tm : TransMap) (repo : Repo) (hok : resolveEntities db resources tm = .ok repo)
    (eid lid : Nat) (hk : (eid, lid) ∈ repo.map (·.1)) :
    ∃ ent ∈ db.entities, ent.id = eid ∧
      alookup tm (ent.resource_path, canonKey ent.key ent.string, lid) ≠ none := by
  simp only [resolveEntities] at hok
  split at hok
  · simp at hok
  · simp only [Except.ok.injEq] at hok
    subst hok
    rcases resolve_fold_keys _ tm [] eid lid hk with h | h
    · simp at h
    · obtain ⟨kv, hkv, hlid, hlk⟩ := h
      obtain ⟨⟨a, b, c⟩, v⟩ := kv
      simp only at hlid hlk
      have hmem := alookup_mem _ _ _ hlk
      rcases entsDict_source _ [] _ _ hmem with h2 | h2
      · simp at h2
      · obtain ⟨e, he, hpk, hid⟩ := h2
        have hedb : e ∈ db.entities := (List.mem_filter.mp he).1
        refine ⟨e, hedb, hid.symm, ?_⟩
        rw [Prod.mk.injEq] at hpk
        rw [← hpk.1, ← hpk.2, ← hlid]
        exact alookup_ne_none_of_mem tm (a, b, c) v hkv

/-- Database-wins inside find_updates_from_repo_to_db: the repo map it
returns has no key for an `(entity, locale)` pair that has a
ChangedEntityLocale row at sync start (entity primary keys assumed
distinct). -/
theorem find_updates_drops_cel (db : Db) (locales : List (String × LocaleRow))
    (cos : List TargetCheckout) (refRoot : String) (env : SyncEnv) (repo : Repo)
    (hok : find_updates_from_repo_to_db db locales cos refRoot env = .ok (some repo))
    (hids : (db.entities.map (·.id)).Nodup)
    (c : CelRow) (hc : c ∈ db.changed_entity_locales) :
    (c.entity_id, c.locale_id) ∉ repo.map (·.1) := by
  intro hk
  simp only [find_updates_from_repo_to_db] at hok
  split at hok
  · simp at hok
  · split at hok
    · simp at hok
    · split at hok
      · simp at hok
      · split at hok
        · simp at hok
        · rename_i res hres
          simp only [Except.ok.injEq, Option.some.injEq] at hok
          subst hok
          obtain ⟨ent, hentdb, hentid, hlkne⟩ :=
            resolveEntities_keys db _ _ res hres c.entity_id c.locale_id hk
          have hEOf : entityOf db c.entity_id = some ent := by
            rw [← hentid]
            exact entityOf_of_nodup db ent hids hentdb
          exact hlkne (celStrip_removes db db.changed_entity_locales _ c hc ent hEOf)

/-- Deleting removed TranslatedResource rows touches no translation, entity
or changed-entity-locale row. -/
theorem delete_removed_keeps (db : Db) (cos : List TargetCheckout) (refRoot : String)
    (env : SyncEnv) :
    (delete_removed_translated_resources db cos refRoot env).translations = db.translations ∧
    (delete_removed_translated_resources db cos refRoot env).entities = db.entities ∧
    (delete_removed_translated_resources db cos refRoot env).changed_entity_locales
      = db.changed_entity_locales := by
  refine ⟨?_, ?_, ?_⟩ <;> simp only [delete_removed_translated_resources] <;> split <;> rfl

/-- Claim C2 (confirmed): database-wins. If a ChangedEntityLocale row for
`(entity, locale)` exists at sync start, the translation sync neither
creates nor modifies any Translation row for that pair, also when it raises
midway: the rows of the pair after the sync are exactly the rows before.
(Entity and translation primary keys are assumed distinct, as in any real
database; the entity sync never creates or modifies Translation rows, it
can only cascade-delete them with a removed resource.) -/
theorem c2_database_wins (db : Db) (locales : List (String × LocaleRow))
    (cos : List TargetCheckout) (refRoot : String) (env : SyncEnv) (now amb : Nat)
    (c : CelRow) (hc : c ∈ db.changed_entity_locales)
    (heids : (db.entities.map (·.id)).Nodup)
    (htids : (db.translations.map (·.id)).Nodup) :
    rowsAt (translationSyncOutcome db locales cos refRoot env now amb).1
        c.entity_id c.locale_id
      = rowsAt db c.entity_id c.locale_id := by
  obtain ⟨hT, hE, hC⟩ := delete_removed_keeps db cos refRoot env
  have hrowsAt0 : rowsAt (delete_removed_translated_resources db cos refRoot env)
      c.entity_id c.locale_id = rowsAt db c.entity_id c.locale_id := by
    unfold rowsAt
    rw [hT]
  cases hs : sync_translations_from_repo db locales cos refRoot env now amb with
  | error e =>
    have houtcome : translationSyncOutcome db locales cos refRoot env now amb
        = (delete_removed_translated_resources db cos refRoot env, []) := by
      unfold translationSyncOutcome
      rw [hs]
    rw [houtcome]
    exact hrowsAt0
  | ok r =>
    have houtcome : translationSyncOutcome db locales cos refRoot env now amb = r := by
      unfold translationSyncOutcome
      rw [hs]
    rw [houtcome]
    simp only [sync_translations_from_repo] at hs
    split at hs
    · exact absurd hs (by simp)
    · simp only [Except.ok.injEq] at hs
      rw [← hs]
      exact hrowsAt0
    · rename_i repo heq
      split at hs
      · simp only [Except.ok.injEq] at hs
        rw [← hs]
        exact hrowsAt0
      · obtain ⟨db2, acts⟩ := r
        have hpres := update_db_preserves_unkeyed
          (delete_removed_translated_resources db cos refRoot env) repo now amb
          db2 acts c.entity_id c.locale_id hs (by rw [hT]; exact htids)
          (find_updates_drops_cel _ locales cos refRoot env repo heq
            (by rw [hE]; exact heids) c (by rw [hC]; exact hc))
        rw [hpres]
        exact hrowsAt0

/-- Witness for C2: the concrete conflicting run leaves the rows of
`(10, 20)` untouched. -/
theorem c2_database_wins_witness :
    rowsAt (translationSyncOutcome dbC2 [("de", ⟨20, "de"⟩)] [coC2] "."
        ⟨fun _ => none⟩ 5 9).1 10 20
      = rowsAt dbC2 10 20 :=
  c2_database_wins dbC2 [("de", ⟨20, "de"⟩)] [coC2] "." ⟨fun _ => none⟩ 5 9
    ⟨10, 20⟩ (by decide) (by decide) (by decide)

end Pontoon
